import Mathlib

/-!
Verification of the AIApiOrchestrator resolution-and-execution engine.

This file shallowly embeds the TypeScript core of the repository
(`src/execution/ApiExecutionEngine.ts`, `src/models/ConnectionBuilder.ts`,
`src/utils/SchemaValidation.ts`, `src/models/ApiEndpoint.ts` and the model
interfaces) into Lean and proves properties of the embedded definitions.

Modelling conventions:
* JavaScript runtime values are the inductive `JsValue`; `undefined` is the
  value `JsValue.undefined`, so functions that may yield `undefined` stay total.
* JavaScript numbers are modelled as exact rationals plus `NaN` and the two
  infinities (`JNumber`); this keeps `isNaN`/`isFinite` checks meaningful.
* JavaScript objects are association lists with first-occurrence lookup;
  assignment updates the first occurrence or appends (`setKey`), which is
  the observable behaviour of property assignment.
* Effectful collaborators that live outside the embedded core (the HTTP
  transport, the language-model client, `JSON.parse`, regex matching and
  the string/number coercion builtins used by transforms) are universally
  quantified function parameters, so every theorem below holds for every
  behaviour of those collaborators.
* A thrown JavaScript `Error` with message `m` is `Except.error m`.
-/

/-- JavaScript numbers: finite values are kept exact as rationals; `NaN` and
the infinities are separate so that `isNaN`/`isFinite` checks translate. -/
inductive JNumber where
  | fin (q : Rat)
  | nan
  | posInf
  | negInf
deriving Repr, DecidableEq

/-- JavaScript runtime values (the JSON fragment plus `undefined`). -/
inductive JsValue where
  | undefined
  | null
  | bool (b : Bool)
  | num (n : JNumber)
  | str (s : String)
  | arr (elems : List JsValue)
  | obj (fields : List (String × JsValue))
deriving Repr

/-- JavaScript truthiness of a value. -/
def jsTruthy : JsValue → Bool
  | .undefined => false
  | .null => false
  | .bool b => b
  | .num (.fin q) => q != 0
  | .num .nan => false
  | .num .posInf => true
  | .num .negInf => true
  | .str s => s != ""
  | .arr _ => true
  | .obj _ => true

/-- The result of JavaScript `typeof` on a modelled value. -/
def jsTypeof : JsValue → String
  | .undefined => "undefined"
  | .null => "object"
  | .bool _ => "boolean"
  | .num _ => "number"
  | .str _ => "string"
  | .arr _ => "object"
  | .obj _ => "object"

/-- First-occurrence lookup in an association list (JavaScript property read
on an object whose keys are unique). -/
def lookupKey {α : Type} : List (String × α) → String → Option α
  | [], _ => none
  | (k', v) :: rest, k => if k' == k then some v else lookupKey rest k

/-- JavaScript property assignment on an association list: update the first
occurrence of the key, or append the binding when the key is absent. -/
def setKey {α : Type} : List (String × α) → String → α → List (String × α)
  | [], k, v => [(k, v)]
  | (k', v') :: rest, k, v =>
    if k' == k then (k, v) :: rest else (k', v') :: setKey rest k v

/-- Whether an association list binds a key. -/
def hasKey {α : Type} (l : List (String × α)) (k : String) : Bool :=
  (lookupKey l k).isSome

/-- Canonical array-index reading of a property key: `"3"` is index 3 but
`"03"` or `"-1"` are plain (absent) properties, as in JavaScript. -/
def canonicalIndex (k : String) : Option Nat :=
  match k.toNat? with
  | some i => if toString i == k then some i else none
  | none => none

/-- JavaScript `key in value` / `hasOwnProperty` over own properties of the
modelled values: object keys, array indices and `length`, string indices
and `length`; primitives own nothing. Inherited prototype members
(`toString` and the like), which `in` would also see, are not modelled —
no engine path or declared schema names them. -/
def jsHasProp : JsValue → String → Bool
  | .obj fields, k => hasKey fields k
  | .arr elems, k =>
    k == "length" ||
      (match canonicalIndex k with
       | some i => decide (i < elems.length)
       | none => false)
  | .str s, k =>
    k == "length" ||
      (match canonicalIndex k with
       | some i => decide (i < s.length)
       | none => false)
  | _, _ => false

/-- JavaScript property read `value[key]`, yielding `undefined` when the
property is absent. -/
def jsGetProp : JsValue → String → JsValue
  | .obj fields, k =>
    match lookupKey fields k with
    | some v => v
    | none => .undefined
  | .arr elems, k =>
    if k == "length" then .num (.fin elems.length)
    else
      match canonicalIndex k with
      | some i =>
        match elems.get? i with
        | some v => v
        | none => .undefined
      | none => .undefined
  | .str s, k =>
    if k == "length" then .num (.fin s.length)
    else
      match canonicalIndex k with
      | some i =>
        match s.toList.get? i with
        | some c => .str (String.mk [c])
        | none => .undefined
      | none => .undefined
  | _, _ => .undefined

/-- JavaScript `Object.keys`: enumerable own keys — object keys in insertion
order, array and string indices; primitives have none. -/
def jsOwnKeys : JsValue → List String
  | .obj fields => fields.map Prod.fst
  | .arr elems => (List.range elems.length).map toString
  | .str s => (List.range s.length).map toString
  | _ => []

/-- JavaScript SameValueZero equality, as used by `Array.prototype.includes`:
structural on primitives (`NaN` matches `NaN`); objects and arrays compare by
reference, so two separately built values are never equal. -/
def sameValueZero : JsValue → JsValue → Bool
  | .undefined, .undefined => true
  | .null, .null => true
  | .bool a, .bool b => a == b
  | .num a, .num b => a == b
  | .str a, .str b => a == b
  | _, _ => false

/-- `src/models/ParameterType.ts`: the five supported parameter types. -/
inductive ParameterType where
  | string
  | number
  | boolean
  | object
  | array
deriving Repr, DecidableEq

/-- The TypeScript string literal of a `ParameterType` (used in messages). -/
def ParameterType.text : ParameterType → String
  | .string => "string"
  | .number => "number"
  | .boolean => "boolean"
  | .object => "object"
  | .array => "array"

/-- `ParameterDefinition.validation` from `src/models/ParameterDefinition.ts`:
numeric bounds, a regex pattern and an allowed-value list. -/
structure ValidationRules where
  min : Option Rat
  max : Option Rat
  pattern : Option String
  enum : Option (List JsValue)
deriving Repr

/-- `src/models/ParameterDefinition.ts`: a parameter's declarative schema.
An inductive (not a structure) because `items` and `properties` recurse.
The documentation-only fields (`description`, `aiMapped`, `examples`) are
omitted: the embedded code never reads them. -/
inductive ParameterDefinition where
  | mk (name : String) (type : ParameterType) (required : Bool)
      (defaultValue : Option JsValue)
      (items : Option ParameterDefinition)
      (properties : Option (List (String × ParameterDefinition)))
      (validation : Option ValidationRules)
deriving Repr

def ParameterDefinition.name : ParameterDefinition → String
  | .mk n _ _ _ _ _ _ => n

def ParameterDefinition.type : ParameterDefinition → ParameterType
  | .mk _ t _ _ _ _ _ => t

def ParameterDefinition.required : ParameterDefinition → Bool
  | .mk _ _ r _ _ _ _ => r

def ParameterDefinition.defaultValue : ParameterDefinition → Option JsValue
  | .mk _ _ _ d _ _ _ => d

def ParameterDefinition.items : ParameterDefinition → Option ParameterDefinition
  | .mk _ _ _ _ i _ _ => i

def ParameterDefinition.properties :
    ParameterDefinition → Option (List (String × ParameterDefinition))
  | .mk _ _ _ _ _ p _ => p

def ParameterDefinition.validation : ParameterDefinition → Option ValidationRules
  | .mk _ _ _ _ _ _ v => v

/-- The spread `\x7b...itemDefinition, name: ...\x7d` used by the validator's
array case: same definition with a replaced name. -/
def ParameterDefinition.withName : ParameterDefinition → String → ParameterDefinition
  | .mk _ t r d i p v, n => .mk n t r d i p v

mutual

/-- Size of a definition tree, ignoring names (the array case of the
validator renames the item definition, which must not change the measure). -/
def psize : ParameterDefinition → Nat
  | .mk _ _ _ _ i p _ => 1 + psizeOptDef i + psizeOptProps p

def psizeOptDef : Option ParameterDefinition → Nat
  | none => 0
  | some d => psize d

def psizeOptProps : Option (List (String × ParameterDefinition)) → Nat
  | none => 0
  | some l => psizeProps l

def psizeProps : List (String × ParameterDefinition) → Nat
  | [] => 0
  | (_, d) :: rest => 1 + psize d + psizeProps rest

end

/-- `ValidationResult` from `src/models/SchemaProperty.ts`. -/
structure ValidationResult where
  isValid : Bool
  errors : List String
  warnings : List String
deriving Repr

namespace SchemaValidation

/- The regex engine (`new RegExp(pattern).test(value)`) and the JavaScript
string conversion used inside template-literal messages are runtime
collaborators outside the embedded core; every validator theorem is
universally quantified over them. -/
variable (regexTest : String → String → Bool)
variable (jsShow : JsValue → String)

/-- `SchemaValidation.isEmpty`: null, undefined or the empty string. -/
def isEmpty : JsValue → Bool
  | .null => true
  | .undefined => true
  | .str s => s == ""
  | _ => false

/-- `SchemaValidation.validateType`: strict type check (a number must be
finite and not NaN; `object` excludes arrays and null). -/
def validateType (value : JsValue) (expectedType : ParameterType) : Bool :=
  match expectedType with
  | .string => match value with | .str _ => true | _ => false
  | .number => match value with | .num (.fin _) => true | _ => false
  | .boolean => match value with | .bool _ => true | _ => false
  | .array => match value with | .arr _ => true | _ => false
  | .object => match value with | .obj _ => true | _ => false

/-- JavaScript `<` between a modelled number and a finite bound
(`NaN` comparisons are false). -/
def jnumLt (n : JNumber) (bound : Rat) : Bool :=
  match n with
  | .fin q => q < bound
  | .nan => false
  | .posInf => false
  | .negInf => true

/-- JavaScript `>` between a modelled number and a finite bound. -/
def jnumGt (n : JNumber) (bound : Rat) : Bool :=
  match n with
  | .fin q => bound < q
  | .nan => false
  | .posInf => true
  | .negInf => false

/-- `Array.prototype.includes` over the enum list (SameValueZero). -/
def enumIncludes (l : List JsValue) (v : JsValue) : Bool :=
  l.any (fun e => sameValueZero e v)

/-- `SchemaValidation.validateConstraints`: min/max for numbers, pattern for
strings, enum membership; returns the errors appended (warnings untouched). -/
def validateConstraints (value : JsValue) (definition : ParameterDefinition) :
    List String :=
  match definition.validation with
  | none => []
  | some rules =>
    let minErrs :=
      match value, rules.min with
      | .num n, some m =>
        if jnumLt n m then
          ["Parameter '" ++ definition.name ++ "' value " ++ jsShow value ++
            " is below minimum " ++ jsShow (.num (.fin m))]
        else []
      | _, _ => []
    let maxErrs :=
      match value, rules.max with
      | .num n, some m =>
        if jnumGt n m then
          ["Parameter '" ++ definition.name ++ "' value " ++ jsShow value ++
            " is above maximum " ++ jsShow (.num (.fin m))]
        else []
      | _, _ => []
    let patternErrs :=
      match value, rules.pattern with
      | .str s, some p =>
        if regexTest p s then []
        else ["Parameter '" ++ definition.name ++
          "' value does not match required pattern"]
      | _, _ => []
    let enumErrs :=
      match rules.enum with
      | some allowed =>
        if enumIncludes allowed value then []
        else ["Parameter '" ++ definition.name ++ "' value '" ++ jsShow value ++
          "' is not in allowed values: " ++ String.intercalate ", " (allowed.map jsShow)]
      | none => []
    minErrs ++ maxErrs ++ patternErrs ++ enumErrs

end SchemaValidation

namespace SchemaValidation

variable (regexTest : String → String → Bool)
variable (jsShow : JsValue → String)

mutual

/-- `SchemaValidation.validateParameter` (`src/utils/SchemaValidation.ts`):
required/empty short-circuit, then strict type check, constraint checks and
nested object/array validation, with `isValid` computed from the errors. -/
def validateParameter (value : JsValue) (definition : ParameterDefinition) :
    ValidationResult :=
  if definition.required && isEmpty value then
    { isValid := false,
      errors := ["Required parameter '" ++ definition.name ++ "' is missing or empty"],
      warnings := [] }
  else if isEmpty value && !definition.required then
    { isValid := true, errors := [], warnings := [] }
  else
    let typeErrs :=
      if validateType value definition.type then []
      else ["Parameter '" ++ definition.name ++ "' expected type '" ++
        definition.type.text ++ "' but got '" ++ jsTypeof value ++ "'"]
    let constraintErrs := validateConstraints regexTest jsShow value definition
    let nested :=
      match hT : definition.type, hP : definition.properties, hI : definition.items with
      | .object, some props, _ =>
        have hlt : psizeProps props < psize definition := by
          cases definition with
          | mk n t r d i p v =>
            simp only [ParameterDefinition.properties] at hP
            subst hP
            simp only [psize, psizeOptProps]
            omega
        validateObject value props
      | .array, _, some itemDef =>
        have hlt : psize itemDef < psize definition := by
          cases definition with
          | mk n t r d i p v =>
            simp only [ParameterDefinition.items] at hI
            subst hI
            simp only [psize, psizeOptDef]
            omega
        validateArray value itemDef
      | _, _, _ => ([], [])
    let errors := typeErrs ++ constraintErrs ++ nested.1
    { isValid := errors.isEmpty, errors := errors, warnings := nested.2 }
termination_by (psize definition, 0, 0)

/-- `SchemaValidation.validateObject`: object-shape guard, then each declared
property recursively (a missing property is validated as `undefined`). -/
def validateObject (value : JsValue) (properties : List (String × ParameterDefinition)) :
    List String × List String :=
  match value with
  | .obj _ => validateProps value properties
  | .arr _ => validateProps value properties
  | _ => (["Expected object type for nested validation"], [])
termination_by (psizeProps properties, 2, 0)

/-- The property loop of `SchemaValidation.validateObject`. -/
def validateProps (value : JsValue) (properties : List (String × ParameterDefinition)) :
    List String × List String :=
  match properties with
  | [] => ([], [])
  | (propName, propDef) :: rest =>
    have h1 : psize propDef < psizeProps ((propName, propDef) :: rest) := by
      simp only [psizeProps]
      omega
    have h2 : psizeProps rest < psizeProps ((propName, propDef) :: rest) := by
      simp only [psizeProps]
      omega
    let r := validateParameter (jsGetProp value propName) propDef
    let tail := validateProps value rest
    (r.errors ++ tail.1, r.warnings ++ tail.2)
termination_by (psizeProps properties, 1, properties.length + 1)

/-- `SchemaValidation.validateArray`: array-shape guard, then each element
against the item definition with an indexed name. -/
def validateArray (value : JsValue) (itemDefinition : ParameterDefinition) :
    List String × List String :=
  match value with
  | .arr elems => validateItems elems 0 itemDefinition
  | _ => (["Expected array type for array validation"], [])
termination_by (psize itemDefinition, 2, 0)

/-- The element loop of `SchemaValidation.validateArray`: element `i` is
validated against the item definition renamed to `name[i]`. -/
def validateItems (elems : List JsValue) (i : Nat) (itemDefinition : ParameterDefinition) :
    List String × List String :=
  match elems with
  | [] => ([], [])
  | v :: rest =>
    have hpw : psize (itemDefinition.withName
        (itemDefinition.name ++ "[" ++ toString i ++ "]")) = psize itemDefinition := by
      cases itemDefinition
      rfl
    let r := validateParameter v
      (itemDefinition.withName (itemDefinition.name ++ "[" ++ toString i ++ "]"))
    let tail := validateItems rest (i + 1) itemDefinition
    (r.errors ++ tail.1, r.warnings ++ tail.2)
termination_by (psize itemDefinition, 1, elems.length + 1)
decreasing_by
  · simp_wf
    rw [hpw]
    exact Prod.Lex.right _ (Prod.Lex.left _ _ (by omega))
  · simp_wf
    exact Prod.Lex.right _ (Prod.Lex.right _ (by omega))

end

/-- `SchemaValidation.validateParameters`: every declared parameter is
validated; keys of `values` with no definition add a warning (not an error). -/
def validateParameters (values : JsValue)
    (definitions : List (String × ParameterDefinition)) : ValidationResult :=
  let perDefinition := definitions.foldl
    (fun acc kv =>
      let r := validateParameter regexTest jsShow (jsGetProp values kv.1) kv.2
      (acc.1 ++ r.errors, acc.2 ++ r.warnings))
    ([], [])
  let unexpected := (jsOwnKeys values).foldl
    (fun acc key =>
      if hasKey definitions key then acc
      else acc ++ ["Unexpected parameter '" ++ key ++ "' provided"])
    []
  { isValid := (perDefinition.1).isEmpty,
    errors := perDefinition.1,
    warnings := perDefinition.2 ++ unexpected }

end SchemaValidation

namespace ConnectionBuilder

/-- `ConnectionBuilder.areTypesCompatible` (`src/models/ConnectionBuilder.ts`,
lines 121-135): the construction-time compatibility check. -/
def areTypesCompatible (sourceType targetType : ParameterType) : Bool :=
  if sourceType == targetType then true
  else if targetType == .string then true
  else if targetType == .number && sourceType == .string then true
  else if targetType == .boolean && sourceType == .string then true
  else false

end ConnectionBuilder

namespace ApiExecutionEngine

/-- `ApiExecutionEngine.areTypesCompatibleEnhanced`
(`src/execution/ApiExecutionEngine.ts`, lines 1317-1334): the
flow-execution-time compatibility check. -/
def areTypesCompatibleEnhanced (sourceType targetType : ParameterType) : Bool :=
  if sourceType == targetType then true
  else if targetType == .string then true
  else if targetType == .number && sourceType == .string then true
  else if targetType == .boolean && sourceType == .string then true
  else if targetType == .object && (sourceType == .array || sourceType == .object)
    then true
  else false

/-- `ApiExecutionEngine.isValidTransformation` (lines 1344-1361): each named
transform's allowed input and output type sets. -/
def isValidTransformation (transformName : String)
    (sourceType targetType : ParameterType) : Bool :=
  let table : List (String × (List ParameterType × List ParameterType)) :=
    [("string", ([.string, .number, .boolean, .array, .object], [.string])),
     ("number", ([.string, .number], [.number])),
     ("boolean", ([.string, .boolean], [.boolean])),
     ("bearer-prefix", ([.string], [.string])),
     ("array-wrap", ([.string, .number, .boolean, .object], [.array])),
     ("array-first", ([.array], [.string, .number, .boolean, .object])),
     ("upper", ([.string], [.string])),
     ("lower", ([.string], [.string])),
     ("trim", ([.string], [.string]))]
  match lookupKey table transformName with
  | none => false
  | some (fromTypes, toTypes) =>
    fromTypes.contains sourceType && toTypes.contains targetType

end ApiExecutionEngine

/-- The compatibility rule exactly as the specification words it (priority
order: identical; any → string; string → number; string → boolean;
(array|object) → object). Written from the spec, for comparison with the
two implementations. -/
def specCompatibleRule (sourceType targetType : ParameterType) : Bool :=
  sourceType == targetType ||
  targetType == .string ||
  (sourceType == .string && targetType == .number) ||
  (sourceType == .string && targetType == .boolean) ||
  ((sourceType == .array || sourceType == .object) && targetType == .object)

/-- Target slots of a connection (`EndpointConnection.targetLocation`). -/
inductive TargetLocation where
  | query
  | body
  | header
  | path
deriving Repr, DecidableEq

/-- `src/models/EndpointConnection.ts`: a data-flow edge between endpoints.
`aiResolvedPath`, `validated` and `createdAt` are omitted: the embedded
engine code never reads them (`validated` is only ever written). -/
structure EndpointConnection where
  id : String
  sourceNodeId : String
  targetNodeId : String
  sourceField : String
  targetField : String
  targetLocation : TargetLocation
  naturalLanguageMapping : String
  transform : Option String
  sourceType : Option ParameterType
  targetType : Option ParameterType
deriving Repr

/-- `src/models/HttpMethod.ts`. -/
inductive HttpMethod where
  | GET
  | POST
  | PUT
  | PATCH
  | DELETE
  | HEAD
  | OPTIONS
deriving Repr, DecidableEq

/-- `src/models/AuthConfig.ts` auth-type tags. -/
inductive AuthType where
  | apiKey
  | bearerToken
  | basic
  | oauth2
  | custom
  | none
deriving Repr, DecidableEq

/-- `BodySchema` (`src/models/BodySchema.ts`): body content kind, optional
declared schema and optional static content. -/
structure BodySchema where
  type : String
  schema : Option (List (String × ParameterDefinition))
  content : Option (List (String × JsValue))
deriving Repr

/-- `ResponseSchema` (`src/models/ResponseData.ts`): the engine only reads
`statusCode`; the optional response-body schema is kept for shape. -/
structure ResponseSchema where
  statusCode : Nat
  body : Option (List (String × ParameterDefinition))
deriving Repr

/-- `NaturalLanguageMapping` (`src/models/ApiEndpoint.ts`): cached AI
resolution; `lastUpdated`/`confidence` are wall-clock metadata, omitted. -/
structure NaturalLanguageMapping where
  input : String
  resolvedParams : Option (List (String × JsValue))
  resolvedBody : Option (List (String × JsValue))
deriving Repr

/-- `src/models/ApiEndpoint.ts`: the static endpoint configuration read by
the engine. Builder-only fields (`description`, timestamps, the property
factories) are omitted. -/
structure ApiEndpoint where
  id : String
  name : String
  method : HttpMethod
  baseUrl : String
  path : String
  queryParams : List (String × ParameterDefinition)
  pathParams : List (String × ParameterDefinition)
  headers : List (String × String)
  body : Option BodySchema
  expectedResponse : List ResponseSchema
  naturalLanguageInput : Option String
  aiMapping : Option NaturalLanguageMapping
  auth : Option AuthType
  connections : List EndpointConnection
deriving Repr

/-- `RequestData` (`src/models/RequestData.ts`): `body` is `none` when the
TypeScript field is `undefined`. -/
structure RequestData where
  url : String
  method : HttpMethod
  headers : List (String × String)
  queryParams : List (String × JsValue)
  body : Option JsValue
deriving Repr

/-- `ResponseData` (`src/models/ResponseData.ts`). -/
structure ResponseData where
  headers : List (String × String)
  body : JsValue
  size : Nat
deriving Repr

/-- `ExecutionResult` (`src/models/ExecutionResult.ts`); `responseTime` and
`timestamp` are wall-clock readings, modelled as an uninterpreted `Nat`. -/
structure ExecutionResult where
  endpointId : String
  success : Bool
  statusCode : Nat
  responseTime : Nat
  requestData : RequestData
  responseData : ResponseData
  error : Option String
deriving Repr

/-- The HTTP response shape produced by `performHttpRequest`. -/
structure HttpResp where
  status : Nat
  headers : List (String × String)
  data : JsValue
deriving Repr

/-- `ExecutionOptions` (`src/models/ExecutionOptions.ts`): the engine reads
`validateResponse` and `continueOnError` through truthiness, so they are
booleans here; `timeout`/`retries` shape the abstracted HTTP oracle. -/
structure ExecutionOptions where
  validateResponse : Bool
  continueOnError : Bool
deriving Repr

/-- Truthiness of an optional JavaScript value (`undefined` when absent). -/
def optJsTruthy : Option JsValue → Bool
  | some v => jsTruthy v
  | none => false

/-- Truthiness of an optional string (`''` and `undefined` are falsy). -/
def optStrTruthy : Option String → Bool
  | some s => s != ""
  | none => false

/-- JavaScript whitespace for `String.prototype.trim` (the characters that
occur in model responses). -/
def isJsSpace (c : Char) : Bool :=
  c == ' ' || c == '\t' || c == '\n' || c == '\r'

/-- JavaScript `String.prototype.trim`. -/
def jsTrim (s : String) : String :=
  String.mk (((s.toList.dropWhile isJsSpace).reverse.dropWhile isJsSpace).reverse)

/-- One global-regex pass removing every occurrence of the pattern
`p0 :: prest` together with one directly following newline when present:
the behaviour of `.replace(/<pat>\n?/g, '')` scanning left to right. The
fuel only bounds the recursion; every step consumes at least one character,
so `stripFenceOcc` starts it at the text's length. -/
def stripFenceFuel (p0 : Char) (prest : List Char) : Nat → List Char → List Char
  | 0, s => s
  | _ + 1, [] => []
  | fuel + 1, c :: rest =>
    if (p0 :: prest).isPrefixOf (c :: rest) then
      match (c :: rest).drop (prest.length + 1) with
      | '\n' :: after2 => stripFenceFuel p0 prest fuel after2
      | other => stripFenceFuel p0 prest fuel other
    else c :: stripFenceFuel p0 prest fuel rest

/-- The pass at adequate fuel. -/
def stripFenceOcc (p0 : Char) (prest : List Char) (s : List Char) : List Char :=
  stripFenceFuel p0 prest s.length s

/-- The sanitation text pipeline of `cleanAiJsonResponse` (lines 794-797):
trim, strip ```` ```json ```` fences, strip ```` ``` ```` fences, trim. -/
def cleanedText (response : String) : String :=
  let afterJsonFence := stripFenceOcc '`' "``json".toList (jsTrim response).toList
  let afterFence := stripFenceOcc '`' "``".toList afterJsonFence
  jsTrim (String.mk afterFence)

/-- Index of the first occurrence of a character. -/
def firstIdxOf (c : Char) : List Char → Option Nat
  | [] => none
  | x :: rest => if x == c then some 0 else (firstIdxOf c rest).map (· + 1)

/-- Index of the last occurrence of a character. -/
def lastIdxOf (c : Char) (l : List Char) : Option Nat :=
  match firstIdxOf c l.reverse with
  | some i => some (l.length - 1 - i)
  | none => none

/-- What the anchored greedy regexes `^[^\x7b]*(\x7b.*\x7d)[^\x7d]*$` (with
the `s` flag) and its bracket twin match: the substring from the first
opening character to the last closing one, provided the last closer stands
after the first opener; otherwise no match. -/
def extractEnclosed (oc cc : Char) (l : List Char) : Option (List Char) :=
  match firstIdxOf oc l, lastIdxOf cc l with
  | some i, some j => if i < j then some ((l.drop i).take (j - i + 1)) else none
  | _, _ => none

/-- The pieces of a character-separated split, as JavaScript
`String.prototype.split` with a one-character separator produces them. -/
def splitParts (sep : Char) : List Char → List (List Char)
  | [] => [[]]
  | c :: rest =>
    match splitParts sep rest with
    | [] => [[]]
    | p :: ps => if c == sep then [] :: p :: ps else (c :: p) :: ps

/-- JavaScript `s.split(sep)` for a one-character separator. -/
def jsSplit (sep : Char) (s : String) : List String :=
  (splitParts sep s.toList).map String.mk

namespace ApiExecutionEngine

/-- `ApiExecutionEngine.cleanAiJsonResponse` (lines 793-821): strip code
fences, then extract the first-to-last brace span, else the bracket span,
else return the cleaned text unchanged. The `error` branches mirror the
falsy-capture checks of the source, which can never fire because a matched
group always holds at least the two enclosing characters. -/
def cleanAiJsonResponse (response : String) : Except String String :=
  let cleaned := cleanedText response
  match extractEnclosed '{' '}' cleaned.toList with
  | some g =>
    if String.mk g == "" then
      .error ("AI body response is not valid JSON: " ++ response)
    else .ok (String.mk g)
  | none =>
    match extractEnclosed '[' ']' cleaned.toList with
    | some g =>
      if String.mk g == "" then
        .error ("AI body response is not valid JSON: " ++ response)
      else .ok (String.mk g)
    | none => .ok cleaned

/-- The walk of `extractValueFromResult` along the split path: skip empty
parts, step into own properties of object-typed truthy values, and yield
`undefined` as soon as a part is missing. -/
def extractFromData : JsValue → List String → JsValue
  | current, [] => current
  | current, part :: rest =>
    if part == "" then extractFromData current rest
    else if jsTruthy current && jsTypeof current == "object" && jsHasProp current part
    then extractFromData (jsGetProp current part) rest
    else .undefined

/-- `ApiExecutionEngine.extractValueFromResult` (lines 1110-1132): extract a
dot-separated path from the recorded response body; an empty path or `"."`
yields the whole body. Total by construction — every miss is `undefined`. -/
def extractValueFromResult (result : ExecutionResult) (path : String) : JsValue :=
  let data := result.responseData.body
  if path == "" || path == "." then data
  else extractFromData data (jsSplit '.' path)

end ApiExecutionEngine

/-- JavaScript object spread `\x7b...a, ...b\x7d`: `b`'s bindings override
`a`'s in place, new keys append in `b`'s order. -/
def spreadMerge (a b : List (String × JsValue)) : List (String × JsValue) :=
  b.foldl (fun acc kv => setKey acc kv.1 kv.2) a

/-- Replace the first occurrence of `pat` in a character list by `repl`
(JavaScript `String.prototype.replace` with a string pattern). -/
def replaceFirstOcc (pat repl : List Char) : List Char → List Char
  | [] => []
  | c :: rest =>
    if pat.isPrefixOf (c :: rest) then repl ++ (c :: rest).drop pat.length
    else c :: replaceFirstOcc pat repl rest

/- `encodeURIComponent` percent-encodes the JavaScript string conversion of
a value; both are runtime builtins outside the embedded core, so the
templating of `getFullUrl` is quantified over the encoder. -/

/-- `ApiEndpoint.getResolvedParams` (`src/models/ApiEndpoint.ts`, lines
173-188): static query defaults overridden by the cached AI-resolved
parameters. -/
def ApiEndpoint.getResolvedParams (endpoint : ApiEndpoint) : List (String × JsValue) :=
  let staticParams := endpoint.queryParams.foldl
    (fun acc kv =>
      match kv.2.defaultValue with
      | some v => setKey acc kv.1 v
      | none => acc)
    []
  spreadMerge staticParams
    (match endpoint.aiMapping with
     | some m => m.resolvedParams.getD []
     | none => [])

/-- `ApiEndpoint.getResolvedBody` (lines 195-202): `null` without a body,
else static content overridden by the cached AI-resolved body. -/
def ApiEndpoint.getResolvedBody (endpoint : ApiEndpoint) : JsValue :=
  match endpoint.body with
  | none => .null
  | some b =>
    .obj (spreadMerge (b.content.getD [])
      (match endpoint.aiMapping with
       | some m => m.resolvedBody.getD []
       | none => []))

/-- `ApiEndpoint.getFullUrl` (lines 147-157): substitute `\x7bname\x7d`
placeholders by the encoded values, then prepend the base URL. The encoder
is the `encodeURIComponent` builtin, passed in as a collaborator. -/
def ApiEndpoint.getFullUrl (encodeURIComponent : JsValue → String)
    (endpoint : ApiEndpoint) (pathValues : Option (List (String × JsValue))) : String :=
  let resolvedPath :=
    match pathValues with
    | none => endpoint.path
    | some vals => vals.foldl
        (fun p kv =>
          String.mk (replaceFirstOcc ("\x7b" ++ kv.1 ++ "\x7d").toList
            (encodeURIComponent kv.2).toList p.toList))
        endpoint.path
  endpoint.baseUrl ++ resolvedPath

/-- `ApiEndpoint.validate` (lines 209-234): base URL and path must be
truthy; every required query parameter needs a truthy default or a truthy
cached AI mapping (the path-parameter check is commented out in source). -/
def ApiEndpoint.validate (endpoint : ApiEndpoint) : List String :=
  let baseErrs := if endpoint.baseUrl == "" then ["Base URL is required"] else []
  let pathErrs := if endpoint.path == "" then ["Path is required"] else []
  let paramErrs := endpoint.queryParams.foldl
    (fun acc kv =>
      let aiValue : JsValue :=
        match endpoint.aiMapping with
        | some m =>
          match m.resolvedParams with
          | some ps => (lookupKey ps kv.1).getD .undefined
          | none => .undefined
        | none => .undefined
      if kv.2.required && !optJsTruthy kv.2.defaultValue && !jsTruthy aiValue then
        acc ++ ["Required query parameter '" ++ kv.1 ++
          "' has no default value or AI mapping"]
      else acc)
    []
  baseErrs ++ pathErrs ++ paramErrs

namespace ApiExecutionEngine

/-- The `resolvedData` record threaded through `resolveEndpointData` and the
AI resolution steps. -/
structure ResolvedData where
  queryParams : List (String × JsValue)
  pathParams : List (String × JsValue)
  body : JsValue
  headers : List (String × String)
deriving Repr

/-- JavaScript property assignment `target[field] = v` for the resolved
body: meaningful on objects; the values reaching it are objects because
`body` is replaced by `\x7b\x7d` when falsy first. -/
def jsSetField : JsValue → String → JsValue → JsValue
  | .obj fields, k, v => .obj (setKey fields k v)
  | other, _, _ => other

/-- `ApiExecutionEngine.validateTypedConnections` (lines 1283-1307): every
connection carrying both types must be compatible, and a configured
transform must be valid for the pair. The `validated` flag written by the
source is never read back by the engine, so it has no model state. -/
def validateTypedConnections (endpoint : ApiEndpoint) : Except String Unit :=
  let typedConnections := endpoint.connections.filter
    (fun c => c.sourceType.isSome && c.targetType.isSome)
  typedConnections.foldlM
    (fun _ connection =>
      let st := connection.sourceType.getD .string
      let tt := connection.targetType.getD .string
      if !areTypesCompatibleEnhanced st tt then
        .error ("Type incompatible connection in " ++ endpoint.id ++ ": " ++
          st.text ++ " -> " ++ tt.text ++ " (" ++ connection.sourceField ++
          " -> " ++ connection.targetField ++ ")")
      else if optStrTruthy connection.transform &&
          !isValidTransformation (connection.transform.getD "") st tt then
        .error ("Invalid transformation '" ++ connection.transform.getD "" ++
          "' for types " ++ st.text ++ " -> " ++ tt.text ++ " in " ++ endpoint.id)
      else .ok ())
    ()

/- The transform interpreter (`applyTransformation`, lines 1155-1184) and
the `String(...)` coercion used for header values are built on JavaScript
coercion builtins (`String`, `Number`, `btoa`, `encodeURIComponent`); they
are collaborator parameters here, and every theorem about the resolver holds
for all of them. -/
variable (applyTransformation : JsValue → String → JsValue)
variable (jsToString : JsValue → String)

/-- One iteration of the connection loop of
`ApiExecutionEngine.resolveEndpointData` (lines 562-592): skip when the
source endpoint is absent from the context, failed, or the extracted field
is `undefined`; otherwise transform when configured and place the value at
the target location (header values coerced to string). -/
def resolveConnectionStep (ctx : List (String × ExecutionResult))
    (rd : ResolvedData) (connection : EndpointConnection) : ResolvedData :=
  match lookupKey ctx connection.sourceNodeId with
  | none => rd
  | some sourceResult =>
    if sourceResult.success then
      match extractValueFromResult sourceResult connection.sourceField with
      | .undefined => rd
      | value =>
        let finalValue :=
          if optStrTruthy connection.transform then
            applyTransformation value (connection.transform.getD "")
          else value
        match connection.targetLocation with
        | .query =>
          { rd with queryParams := setKey rd.queryParams connection.targetField finalValue }
        | .body =>
          let base := if jsTruthy rd.body then rd.body else .obj []
          { rd with body := jsSetField base connection.targetField finalValue }
        | .header =>
          { rd with headers := setKey rd.headers connection.targetField (jsToString finalValue) }
        | .path =>
          { rd with pathParams := setKey rd.pathParams connection.targetField finalValue }
    else rd

/-- `ApiExecutionEngine.resolveEndpointData` (lines 542-595): static
defaults and cached AI values, then every connection in declaration order. -/
def resolveEndpointData (ctx : List (String × ExecutionResult))
    (endpoint : ApiEndpoint) : ResolvedData :=
  let queryParams := endpoint.getResolvedParams
  let pathParams := endpoint.pathParams.foldl
    (fun acc kv =>
      match kv.2.defaultValue with
      | some v => setKey acc kv.1 v
      | none => acc)
    []
  let body := endpoint.getResolvedBody
  let headers := endpoint.headers
  endpoint.connections.foldl
    (resolveConnectionStep applyTransformation jsToString ctx)
    { queryParams := queryParams, pathParams := pathParams,
      body := body, headers := headers }

end ApiExecutionEngine

namespace ApiExecutionEngine

variable (regexTest : String → String → Bool)
variable (jsShow : JsValue → String)

/-- `ApiExecutionEngine.validateParameterSchema` (lines 217-239) as the
engine uses it: a throwing check around `SchemaValidation.validateParameters`
(warnings are only logged, never fatal). -/
def validateParameterSchema (aiResponse : JsValue)
    (schema : List (String × ParameterDefinition)) (contextType : String) :
    Except String Unit :=
  let result := SchemaValidation.validateParameters regexTest jsShow aiResponse schema
  if !result.isValid then
    .error ("AI " ++ contextType ++ " response validation failed:\n" ++
      String.intercalate "\n" (result.errors.map (fun e => "  - " ++ e)) ++
      (if !result.warnings.isEmpty then
        "\nWarnings:\n" ++
          String.intercalate "\n" (result.warnings.map (fun w => "  - " ++ w))
       else ""))
  else .ok ()

/-- The merge step of `resolvePathParameters` (lines 636-641): for each key
of the ALREADY RESOLVED path-parameter map (not the declared schema), take
the AI value when the AI response owns the key. -/
def mergeAiPathParams (resolvedPathParams : List (String × JsValue))
    (aiResolvedParams : JsValue) : List (String × JsValue) :=
  (resolvedPathParams.map Prod.fst).foldl
    (fun acc key =>
      if jsHasProp aiResolvedParams key then
        setKey acc key (jsGetProp aiResolvedParams key)
      else acc)
    resolvedPathParams

/-- The merge step of `resolveQueryParameters` (lines 697-702): for each key
of the DECLARED query schema, take the AI value when the AI response owns
the key (which can add keys to the resolved map). -/
def mergeAiQueryParams (queryParams : List (String × ParameterDefinition))
    (resolvedQueryParams : List (String × JsValue))
    (aiResolvedParams : JsValue) : List (String × JsValue) :=
  (queryParams.map Prod.fst).foldl
    (fun acc key =>
      if jsHasProp aiResolvedParams key then
        setKey acc key (jsGetProp aiResolvedParams key)
      else acc)
    resolvedQueryParams

/-- `ApiExecutionEngine.resolveQueryParameters` (lines 666-717) from the
point where the model's free-text response is in hand: sanitize, parse
(`parseJson` is the `JSON.parse` collaborator; its `error` is the
`SyntaxError` message), validate against the declared schema, then merge.
The catch-clause classification of the source maps a `SyntaxError` to the
"not valid JSON" message, re-throws validation failures (they contain
"AI query response"), and wraps anything else as a resolution failure. -/
def resolveQueryParametersAi (parseJson : String → Except String JsValue)
    (endpoint : ApiEndpoint) (resolvedQueryParams : List (String × JsValue))
    (aiResponse : String) : Except String (List (String × JsValue)) :=
  match cleanAiJsonResponse aiResponse with
  | .error m => .error ("AI query parameter resolution failed: " ++ m)
  | .ok cleanResponse =>
    match parseJson cleanResponse with
    | .error m => .error ("AI query parameter response is not valid JSON: " ++ m)
    | .ok aiResolvedParams =>
      match validateParameterSchema regexTest jsShow aiResolvedParams
          endpoint.queryParams "query" with
      | .error m => .error m
      | .ok _ =>
        .ok (mergeAiQueryParams endpoint.queryParams resolvedQueryParams aiResolvedParams)

end ApiExecutionEngine

namespace ApiExecutionEngine

/-- The dependency sort's working state: the `sorted` output list and the
set of black (fully visited) endpoint ids, kept as a list. -/
abbrev SortState := List ApiEndpoint × List String

/-- The errors `sortEndpointsByDependencies` can raise. `outOfFuel` is a
model artifact: the recursion of the source terminates because the grey set
grows along every path, which the fuel argument makes structural; the
supporting lemmas show adequate fuel never reaches it. -/
inductive SortErr where
  | cycle (id : String)
  | outOfFuel
deriving Repr, DecidableEq

/-- The message of the error thrown on a cycle (line 1201). -/
def cycleMessage (id : String) : String :=
  "Circular dependency detected involving endpoint: " ++ id

def SortErr.message : SortErr → String
  | .cycle id => cycleMessage id
  | .outOfFuel => "SORT_MODEL_OUT_OF_FUEL"

/-- The recursive `visit` of `sortEndpointsByDependencies` (lines
1199-1221): a grey endpoint means a cycle; a black one returns; otherwise
visit every connection's source that `find?` locates in the input, then
append the endpoint and blacken its id. `visiting` is passed down only —
the source adds the id before the loop and deletes it after, so each call
leaves the grey set as it found it. -/
def sortVisit (endpoints : List ApiEndpoint) :
    Nat → List String → SortState → ApiEndpoint → Except SortErr SortState
  | 0, _, _, _ => .error .outOfFuel
  | fuel + 1, visiting, st, e =>
    if e.id ∈ visiting then
      .error (.cycle e.id)
    else if e.id ∈ st.2 then
      .ok st
    else
      match e.connections.foldlM
          (fun st' c =>
            match endpoints.find? (fun ep => ep.id == c.sourceNodeId) with
            | some dep => sortVisit endpoints fuel (e.id :: visiting) st' dep
            | none => .ok st')
          st with
      | .error m => .error m
      | .ok st' => .ok (st'.1 ++ [e], e.id :: st'.2)

/-- `ApiExecutionEngine.sortEndpointsByDependencies` (lines 1194-1225):
depth-first visit of every endpoint in input order. The fuel
`endpoints.length + 1` strictly exceeds the deepest possible grey chain. -/
def sortEndpointsByDependencies (endpoints : List ApiEndpoint) :
    Except String (List ApiEndpoint) :=
  match endpoints.foldlM
      (fun st e => sortVisit endpoints (endpoints.length + 1) [] st e)
      (([], []) : SortState) with
  | .error m => .error m.message
  | .ok st => .ok st.1

end ApiExecutionEngine

namespace ApiExecutionEngine

variable (applyTransformation : JsValue → String → JsValue)
variable (jsToString : JsValue → String)
variable (encodeURIComponent : JsValue → String)
variable (jsonStringify : JsValue → String)

/-- `ApiExecutionEngine.buildRequestConfig` (lines 980-1009):
`processAiResolution` (prompt templating plus completion calls) runs only
when the endpoint carries a truthy natural-language intent; it is the
`aiResolve` collaborator here. Then the URL is templated, a content type is
defaulted for truthy non-GET bodies, and the body rides along for non-GET
methods. -/
def buildRequestConfig (aiResolve : ResolvedData → Except String ResolvedData)
    (endpoint : ApiEndpoint) (resolvedData : ResolvedData) :
    Except String RequestData :=
  match (if optStrTruthy endpoint.naturalLanguageInput
         then aiResolve resolvedData else .ok resolvedData) with
  | .error m => .error m
  | .ok rd =>
    let url := endpoint.getFullUrl encodeURIComponent (some rd.pathParams)
    let headers := rd.headers
    let headers :=
      if jsTruthy rd.body && !optStrTruthy (lookupKey headers "Content-Type") &&
          endpoint.method != .GET then
        setKey headers "Content-Type"
          (if (match endpoint.body with
               | some b => b.type == "form"
               | none => false) then
            "application/x-www-form-urlencoded"
          else "application/json")
      else headers
    .ok { url := url, method := endpoint.method, headers := headers,
          queryParams := rd.queryParams,
          body := if endpoint.method != .GET then some rd.body else none }

/-- `ApiExecutionEngine.validateResponse` (lines 1235-1245): the status code
must appear among the endpoint's expected responses. -/
def validateResponse (endpoint : ApiEndpoint) (result : ExecutionResult) :
    Except String Unit :=
  match endpoint.expectedResponse.find?
      (fun resp => resp.statusCode == result.statusCode) with
  | some _ => .ok ()
  | none => .error ("Unexpected status code: " ++ toString result.statusCode)

/-- The successful `ExecutionResult` built by `executeEndpoint` (lines
125-143) from the request configuration, the resolved data and the HTTP
response (wall-clock fields are 0 in the model). -/
def successResult (endpoint : ApiEndpoint) (requestConfig : RequestData)
    (rd : ResolvedData) (response : HttpResp) : ExecutionResult :=
  { endpointId := endpoint.id
    success := true
    statusCode := response.status
    responseTime := 0
    requestData :=
      { url := requestConfig.url, method := requestConfig.method,
        headers := requestConfig.headers, queryParams := rd.queryParams,
        body := some rd.body }
    responseData :=
      { headers := response.headers, body := response.data,
        size := (jsonStringify response.data).length }
    error := none }

/-- The synthetic failed `ExecutionResult` built by the catch block of
`executeEndpoint` (lines 157-175): success false, status 0, empty request
and response data, the thrown message as `error`. -/
def failureResult (endpoint : ApiEndpoint) (msg : String) : ExecutionResult :=
  { endpointId := endpoint.id
    success := false
    statusCode := 0
    responseTime := 0
    requestData :=
      { url := endpoint.getFullUrl encodeURIComponent none,
        method := endpoint.method, headers := [], queryParams := [], body := none }
    responseData := { headers := [], body := .null, size := 0 }
    error := some msg }

/-- The body of the `try` block of `executeEndpoint` (lines 91-118) up to
the HTTP response: self-validation, typed-connection validation, data
resolution, request building (with the AI collaborator), the auth handler
(the registry's handlers and a custom handler are the `authStep`
collaborator, applied exactly when an endpoint or global auth config with a
type other than `none` is present), then the HTTP call (`httpStep`
abstracts `executeHttpRequest` with its retries and timeout). -/
def executeEndpointAttempt (aiResolve : ResolvedData → Except String ResolvedData)
    (authStep : RequestData → Except String RequestData)
    (httpStep : RequestData → Except String HttpResp)
    (globalAuth : Option AuthType) (ctx : List (String × ExecutionResult))
    (endpoint : ApiEndpoint) :
    Except String (RequestData × ResolvedData × HttpResp) :=
  let validationErrors := endpoint.validate
  if !validationErrors.isEmpty then
    .error ("Endpoint validation failed: " ++ String.intercalate ", " validationErrors)
  else
    match validateTypedConnections endpoint with
    | .error m => .error m
    | .ok _ =>
      let resolvedData := resolveEndpointData applyTransformation jsToString ctx endpoint
      match buildRequestConfig encodeURIComponent aiResolve endpoint resolvedData with
      | .error m => .error m
      | .ok requestConfig =>
        let authConfig := match endpoint.auth with
          | some a => some a
          | none => globalAuth
        match (match authConfig with
               | some a => if a != .none then authStep requestConfig else .ok requestConfig
               | none => .ok requestConfig) with
        | .error m => .error m
        | .ok requestConfig =>
          match httpStep requestConfig with
          | .error m => .error m
          | .ok response => .ok (requestConfig, resolvedData, response)

/-- `ApiExecutionEngine.executeEndpoint` (lines 83-180): on success the
result is recorded in the context and, when `validateResponse` was opted in,
the status check runs strictly afterwards — its throw lands in the same
catch block, which records a synthetic failed result over the same id. Any
error of the attempt produces and records the synthetic failed result; no
exception escapes. Returns the new context and the returned result. -/
def executeEndpoint (aiResolve : ResolvedData → Except String ResolvedData)
    (authStep : RequestData → Except String RequestData)
    (httpStep : RequestData → Except String HttpResp)
    (globalAuth : Option AuthType) (ctx : List (String × ExecutionResult))
    (endpoint : ApiEndpoint) (options : ExecutionOptions) :
    List (String × ExecutionResult) × ExecutionResult :=
  match executeEndpointAttempt applyTransformation jsToString encodeURIComponent
      aiResolve authStep httpStep globalAuth ctx endpoint with
  | .ok (requestConfig, rd, response) =>
    let result := successResult jsonStringify endpoint requestConfig rd response
    let ctxRecorded := setKey ctx endpoint.id result
    if options.validateResponse then
      match validateResponse endpoint result with
      | .ok _ => (ctxRecorded, result)
      | .error msg =>
        let failed := failureResult encodeURIComponent endpoint msg
        (setKey ctxRecorded endpoint.id failed, failed)
    else (ctxRecorded, result)
  | .error msg =>
    let failed := failureResult encodeURIComponent endpoint msg
    (setKey ctx endpoint.id failed, failed)

/-- The endpoint loop of `executeFlow` (lines 197-205): run each endpoint in
the sorted order, stop after the first failed result unless
`continueOnError` is set. -/
def executeFlowGo (aiResolve : ResolvedData → Except String ResolvedData)
    (authStep : RequestData → Except String RequestData)
    (httpStep : RequestData → Except String HttpResp)
    (globalAuth : Option AuthType) (options : ExecutionOptions) :
    List ApiEndpoint → List (String × ExecutionResult) → List ExecutionResult →
    List (String × ExecutionResult) × List ExecutionResult
  | [], ctx, acc => (ctx, acc)
  | e :: rest, ctx, acc =>
    let step := executeEndpoint applyTransformation jsToString encodeURIComponent
      jsonStringify aiResolve authStep httpStep globalAuth ctx e options
    if !step.2.success && !options.continueOnError then (step.1, acc ++ [step.2])
    else executeFlowGo aiResolve authStep httpStep globalAuth options rest step.1
      (acc ++ [step.2])

/-- `ApiExecutionEngine.executeFlow` (lines 189-208): sort once up front —
a cycle error aborts the whole flow — then drive the per-endpoint machine
in the resolved order. -/
def executeFlow (aiResolve : ResolvedData → Except String ResolvedData)
    (authStep : RequestData → Except String RequestData)
    (httpStep : RequestData → Except String HttpResp)
    (globalAuth : Option AuthType) (ctx : List (String × ExecutionResult))
    (endpoints : List ApiEndpoint) (options : ExecutionOptions) :
    Except String (List (String × ExecutionResult) × List ExecutionResult) :=
  match sortEndpointsByDependencies endpoints with
  | .error m => .error m
  | .ok sorted =>
    .ok (executeFlowGo applyTransformation jsToString encodeURIComponent
      jsonStringify aiResolve authStep httpStep globalAuth options sorted ctx [])

end ApiExecutionEngine

/-! Concrete fixtures used by the claim theorems and their witnesses. -/

/-- A connection that only carries a dependency edge (no types, no
transform), as the dependency sort reads it. -/
def depConnection (src tgt : String) : EndpointConnection :=
  { id := src ++ "_" ++ tgt, sourceNodeId := src, targetNodeId := tgt,
    sourceField := "id", targetField := "id", targetLocation := .query,
    naturalLanguageMapping := "", transform := none,
    sourceType := none, targetType := none }

/-- A minimal endpoint carrying just an id and its dependency edges. -/
def mkSortEndpoint (id : String) (conns : List EndpointConnection) : ApiEndpoint :=
  { id := id, name := id, method := .GET, baseUrl := "https://api.example.com",
    path := "/" ++ id, queryParams := [], pathParams := [], headers := [],
    body := none, expectedResponse := [], naturalLanguageInput := none,
    aiMapping := none, auth := none, connections := conns }

/-- Endpoint `A` of the spec's ordering example: no dependencies. -/
def epOrderA : ApiEndpoint := mkSortEndpoint "A" []

/-- Endpoint `B`: depends on `A`. -/
def epOrderB : ApiEndpoint := mkSortEndpoint "B" [depConnection "A" "B"]

/-- Endpoint `C`: depends on `B`. -/
def epOrderC : ApiEndpoint := mkSortEndpoint "C" [depConnection "B" "C"]

/-- Endpoint `A` of the cycle example: depends on `B`. -/
def epCycleA : ApiEndpoint := mkSortEndpoint "A" [depConnection "B" "A"]

/-- Endpoint `B` of the cycle example: depends on `A`. -/
def epCycleB : ApiEndpoint := mkSortEndpoint "B" [depConnection "A" "B"]

/-- Stability counterexample, endpoint `A`: depends on `B`. -/
def epStabA : ApiEndpoint := mkSortEndpoint "A" [depConnection "B" "A"]

/-- Stability counterexample, endpoint `B`: independent. -/
def epStabB : ApiEndpoint := mkSortEndpoint "B" []

/-- Stability counterexample, endpoint `C`: independent. -/
def epStabC : ApiEndpoint := mkSortEndpoint "C" []

/-- A recorded successful source result with body
`\x7b"data":\x7b"user":\x7b"id":42\x7d\x7d\x7d`. -/
def sampleSourceResult : ExecutionResult :=
  { endpointId := "get-user", success := true, statusCode := 200,
    responseTime := 0,
    requestData :=
      { url := "https://api.example.com/users", method := .GET, headers := [],
        queryParams := [], body := none },
    responseData :=
      { headers := [],
        body := .obj [("data", .obj [("user", .obj [("id", .num (.fin 42))])])],
        size := 0 },
    error := none }

/-- A definition `userId : string, required` with no constraints. -/
def demoRequiredDef : ParameterDefinition :=
  .mk "userId" .string true none none none none

/-- The same definition with `required := false`. -/
def demoOptionalDef : ParameterDefinition :=
  .mk "userId" .string false none none none none

/-- A valid endpoint that expects only status 200, used to drive the
response-validation path. -/
def demoEndpoint : ApiEndpoint :=
  { id := "get-products", name := "get-products", method := .GET,
    baseUrl := "https://api.example.com", path := "/products",
    queryParams := [], pathParams := [], headers := [], body := none,
    expectedResponse := [{ statusCode := 200, body := none }],
    naturalLanguageInput := none, aiMapping := none, auth := none,
    connections := [] }

/-- An endpoint declaring the path parameter `id` (no default), used by the
merge counterexample. -/
def demoPathEndpoint : ApiEndpoint :=
  { id := "get-product", name := "get-product", method := .GET,
    baseUrl := "https://api.example.com", path := "/products/\x7bid\x7d",
    queryParams := [],
    pathParams := [("id", .mk "id" .number true none none none none)],
    headers := [], body := none, expectedResponse := [],
    naturalLanguageInput := some "get the product", aiMapping := none,
    auth := none, connections := [] }

namespace ApiExecutionEngine

/-- Position of an endpoint in a list, through its id (ids are unique in
every list the sort handles, so this is the endpoint's index). -/
def posOf (l : List ApiEndpoint) (x : ApiEndpoint) : Nat :=
  (l.map ApiEndpoint.id).indexOf x.id

/-- Some input endpoint has a connection naming `x.id` as its source. -/
def sourcedIn (endpoints : List ApiEndpoint) (x : ApiEndpoint) : Prop :=
  ∃ ep, ep ∈ endpoints ∧ ∃ c, c ∈ ep.connections ∧ c.sourceNodeId = x.id

/-- No input endpoint's connection names `e.id` as its source, so the
depth-first sort reaches `e` only from its top-level loop. -/
def neverSourced (endpoints : List ApiEndpoint) (e : ApiEndpoint) : Prop :=
  ∀ ep, ep ∈ endpoints → ∀ c, c ∈ ep.connections → c.sourceNodeId ≠ e.id

/-- Endpoint `a` depends on endpoint `b` within the input: one of `a`'s
connections names `b.id` as its source, both present in the input. -/
def dependsOn (endpoints : List ApiEndpoint) (a b : ApiEndpoint) : Prop :=
  a ∈ endpoints ∧ b ∈ endpoints ∧ ∃ c, c ∈ a.connections ∧ c.sourceNodeId = b.id

/-- The input holds a dependency cycle: some endpoint depends on itself
through one or more connection edges. -/
def hasDependencyCycle (endpoints : List ApiEndpoint) : Prop :=
  ∃ e, Relation.TransGen (dependsOn endpoints) e e

/-- What one successful `sortVisit` call guarantees, before any uniqueness
assumption: the output list only grows at the end, black ids only grow, the
visited endpoint ends black, ids that were grey on entry never turn black
inside the call, and every newly sorted endpoint is the visited one or an
input endpoint that some input connection sources. -/
def SortVisitFacts (endpoints : List ApiEndpoint) (visiting : List String)
    (st st' : SortState) (e : ApiEndpoint) : Prop :=
  (∃ suf, st'.1 = st.1 ++ suf) ∧
  (∀ i, i ∈ st.2 → i ∈ st'.2) ∧
  e.id ∈ st'.2 ∧
  (∀ i, i ∈ st'.2 → i ∈ st.2 ∨ i ∉ visiting) ∧
  (∀ x, x ∈ st'.1 → x ∈ st.1 ∨ x = e ∨ (x ∈ endpoints ∧ sourcedIn endpoints x))

/-- What one successful pass over a connection list guarantees: growth and
grey-avoidance as for a visit, every connection's located dependency ends
black, and every newly sorted endpoint is a located input endpoint. -/
def SortFoldFacts (endpoints : List ApiEndpoint) (visiting : List String)
    (st st' : SortState) (conns : List EndpointConnection) : Prop :=
  (∃ suf, st'.1 = st.1 ++ suf) ∧
  (∀ i, i ∈ st.2 → i ∈ st'.2) ∧
  (∀ i, i ∈ st'.2 → i ∈ st.2 ∨ i ∉ visiting) ∧
  (∀ c, c ∈ conns → ∀ dep,
    endpoints.find? (fun ep => ep.id == c.sourceNodeId) = some dep →
    dep.id ∈ st'.2) ∧
  (∀ x, x ∈ st'.1 → x ∈ st.1 ∨ (x ∈ endpoints ∧ sourcedIn endpoints x))

/-- The sort's state invariant: the black set is exactly the ids of the
sorted list (newest first), sorted endpoints come from the input, their ids
are distinct, and the sorted list is already dependency-ordered: every
sorted endpoint's in-input dependencies are sorted earlier. -/
def SortInv (endpoints : List ApiEndpoint) (st : SortState) : Prop :=
  st.2 = (st.1.map ApiEndpoint.id).reverse ∧
  (∀ x, x ∈ st.1 → x ∈ endpoints) ∧
  (st.1.map ApiEndpoint.id).Nodup ∧
  (∀ e, e ∈ st.1 → ∀ c, c ∈ e.connections → ∀ d, d ∈ endpoints →
    d.id = c.sourceNodeId → d ∈ st.1 ∧ posOf st.1 d < posOf st.1 e)

/-- The step function of the top-level loop of
`sortEndpointsByDependencies`. -/
def sortTopStep (endpoints : List ApiEndpoint) (st : SortState)
    (e : ApiEndpoint) : Except SortErr SortState :=
  sortVisit endpoints (endpoints.length + 1) [] st e

/-- The step function of the connection loop inside `sortVisit`. -/
def sortConnStep (endpoints : List ApiEndpoint) (fuel : Nat)
    (visiting : List String) (st : SortState) (c : EndpointConnection) :
    Except SortErr SortState :=
  match endpoints.find? (fun ep => ep.id == c.sourceNodeId) with
  | some dep => sortVisit endpoints fuel visiting st dep
  | none => .ok st

end ApiExecutionEngine

/-! Theorems. -/

/-- C2 counterexample: at the connection-construction checkpoint
(`ConnectionBuilder.areTypesCompatible`) the pair array → object is
rejected, although the claimed priority rule makes it compatible; so the
claim that both checkpoints realise the rule is false. -/
theorem C2_builder_rejects_array_to_object :
    ConnectionBuilder.areTypesCompatible .array .object = false ∧
    specCompatibleRule .array .object = true := by
  decide

/-- C2 (amended): the flow-execution checkpoint
(`areTypesCompatibleEnhanced`) returns true exactly on the pairs of the
priority rule; the construction checkpoint (`areTypesCompatible`) agrees on
every pair except array → object, which it alone rejects (it lacks the
`(array|object) → object` clause; object → object is already covered by
identity). -/
theorem C2_compatibility_matrices (sourceType targetType : ParameterType) :
    ApiExecutionEngine.areTypesCompatibleEnhanced sourceType targetType =
      specCompatibleRule sourceType targetType ∧
    ConnectionBuilder.areTypesCompatible sourceType targetType =
      (specCompatibleRule sourceType targetType &&
        !(sourceType == .array && targetType == .object)) := by
  cases sourceType <;> cases targetType <;> decide

/-- C3: for every parameter definition, each empty value (null, undefined,
the empty string) makes `validateParameter` return exactly the single
required-field error with no warnings when `required` is set — the
short-circuit return, so no type, constraint or nested check contributes —
and a clean valid result when `required` is not set. -/
theorem C3_required_empty_single_error
    (regexTest : String → String → Bool) (jsShow : JsValue → String)
    (definition : ParameterDefinition) (value : JsValue)
    (hv : value = .null ∨ value = .undefined ∨ value = .str "") :
    SchemaValidation.validateParameter regexTest jsShow value definition =
      (if definition.required then
        { isValid := false,
          errors := ["Required parameter '" ++ definition.name ++
            "' is missing or empty"],
          warnings := [] }
      else { isValid := true, errors := [], warnings := [] }) := by
  have hempty : SchemaValidation.isEmpty value = true := by
    rcases hv with h | h | h <;> subst h <;> rfl
  rw [SchemaValidation.validateParameter]
  cases hreq : definition.required <;> simp [hempty, hreq]

/-- C3 witness: the single-error and the clean outcome at the concrete
definition `userId : string` on the value `null`. -/
theorem C3_required_empty_single_error_witness :
    ((JsValue.null = .null ∨ JsValue.null = .undefined ∨ JsValue.null = .str "") ∧
      SchemaValidation.validateParameter (fun _ _ => true) (fun _ => "")
        .null demoRequiredDef =
        (if demoRequiredDef.required then
          { isValid := false,
            errors := ["Required parameter '" ++ demoRequiredDef.name ++
              "' is missing or empty"],
            warnings := [] }
        else { isValid := true, errors := [], warnings := [] })) ∧
    SchemaValidation.validateParameter (fun _ _ => true) (fun _ => "")
        .null demoOptionalDef =
      (if demoOptionalDef.required then
        { isValid := false,
          errors := ["Required parameter '" ++ demoOptionalDef.name ++
            "' is missing or empty"],
          warnings := [] }
      else { isValid := true, errors := [], warnings := [] }) :=
  ⟨⟨Or.inl rfl,
    C3_required_empty_single_error _ _ demoRequiredDef .null (Or.inl rfl)⟩,
    C3_required_empty_single_error _ _ demoOptionalDef .null (Or.inl rfl)⟩

/-- C10: every `ValidationResult` the schema validator returns — from
`validateParameter` (including its recursive object/array validation, whose
collected nested errors feed the final record) and from
`validateParameters` (whose unexpected-parameter findings enter only the
warnings) — satisfies `isValid = errors.isEmpty`; warnings never affect
`isValid`. -/
theorem C10_isValid_iff_no_errors
    (regexTest : String → String → Bool) (jsShow : JsValue → String) :
    (∀ (value : JsValue) (definition : ParameterDefinition),
      (SchemaValidation.validateParameter regexTest jsShow value definition).isValid =
        (SchemaValidation.validateParameter regexTest jsShow value definition).errors.isEmpty) ∧
    (∀ (values : JsValue) (definitions : List (String × ParameterDefinition)),
      (SchemaValidation.validateParameters regexTest jsShow values definitions).isValid =
        (SchemaValidation.validateParameters regexTest jsShow values definitions).errors.isEmpty) := by
  constructor
  · intro value definition
    rw [SchemaValidation.validateParameter]
    split
    · rfl
    · split
      · rfl
      · rfl
  · intro values definitions
    rfl

/-- C4 counterexample: on a model response with no brace or bracket
structure the sanitizer succeeds with the cleaned text (it raises no
"no JSON structure" error), and the pipeline's failure is the one derived
from the `JSON.parse` `SyntaxError` — there is no distinct
missing-JSON-structure error kind. -/
theorem C4_no_structure_yields_parse_error :
    ApiExecutionEngine.cleanAiJsonResponse "The server is busy, please retry later." =
      .ok "The server is busy, please retry later." ∧
    ApiExecutionEngine.resolveQueryParametersAi (fun _ _ => true) (fun _ => "")
      (fun _ => .error "Unexpected token T in JSON at position 0")
      demoEndpoint [] "The server is busy, please retry later." =
      .error ("AI query parameter response is not valid JSON: " ++
        "Unexpected token T in JSON at position 0") := by
  constructor
  · rfl
  · rfl

/-- C4 (amended): when no top-level brace span and no bracket span can be
extracted from the cleaned response, `cleanAiJsonResponse` returns the
cleaned text unchanged instead of failing; the subsequent `JSON.parse`
failure surfaces as the "is not valid JSON" error built from the
`SyntaxError` message (no distinct missing-structure error kind exists);
and the fenced input ```` ```json\n\x7b"id":1\x7d\n``` ```` sanitizes to
exactly `\x7b"id":1\x7d`. -/
theorem C4_sanitizer_returns_text_and_parse_fails
    (regexTest : String → String → Bool) (jsShow : JsValue → String)
    (parseJson : String → Except String JsValue) (endpoint : ApiEndpoint)
    (resolvedQueryParams : List (String × JsValue)) (response : String) :
    (extractEnclosed '{' '}' (cleanedText response).toList = none →
      extractEnclosed '[' ']' (cleanedText response).toList = none →
      ApiExecutionEngine.cleanAiJsonResponse response = .ok (cleanedText response)) ∧
    (∀ cleanResponse msg,
      ApiExecutionEngine.cleanAiJsonResponse response = .ok cleanResponse →
      parseJson cleanResponse = .error msg →
      ApiExecutionEngine.resolveQueryParametersAi regexTest jsShow parseJson
        endpoint resolvedQueryParams response =
        .error ("AI query parameter response is not valid JSON: " ++ msg)) ∧
    ApiExecutionEngine.cleanAiJsonResponse "```json\n\x7b\"id\":1\x7d\n```" =
      .ok "\x7b\"id\":1\x7d" := by
  refine ⟨fun h1 h2 => ?_, fun cleanResponse msg hclean hparse => ?_, rfl⟩
  · rw [show (cleanedText response).toList = (cleanedText response).data from rfl] at h1 h2
    simp [ApiExecutionEngine.cleanAiJsonResponse, h1, h2]
  · simp [ApiExecutionEngine.resolveQueryParametersAi, hclean, hparse]

/-- C4 witness: the amended statement applied at the structureless input
`"no json here"` and a parse collaborator failing with a concrete
`SyntaxError` message. -/
theorem C4_sanitizer_returns_text_witness :
    ApiExecutionEngine.cleanAiJsonResponse "no json here" =
      .ok (cleanedText "no json here") ∧
    ApiExecutionEngine.resolveQueryParametersAi (fun _ _ => true) (fun _ => "")
      (fun _ => .error "Unexpected end of JSON input") demoEndpoint []
      "no json here" =
      .error ("AI query parameter response is not valid JSON: " ++
        "Unexpected end of JSON input") :=
  ⟨(C4_sanitizer_returns_text_and_parse_fails (fun _ _ => true) (fun _ => "")
      (fun _ => .error "Unexpected end of JSON input") demoEndpoint []
      "no json here").1 rfl rfl,
    (C4_sanitizer_returns_text_and_parse_fails (fun _ _ => true) (fun _ => "")
      (fun _ => .error "Unexpected end of JSON input") demoEndpoint []
      "no json here").2.1 "no json here" "Unexpected end of JSON input" rfl rfl⟩

/-- Reading back the key just assigned. -/
theorem lookupKey_setKey_self {α : Type} (l : List (String × α)) (k : String) (v : α) :
    lookupKey (setKey l k v) k = some v := by
  induction l with
  | nil => simp [setKey, lookupKey]
  | cons hd tl ih =>
    cases hd with
    | mk hk hv =>
      by_cases hh : hk = k
      · simp [setKey, lookupKey, hh]
      · simp [setKey, lookupKey, hh, ih]

/-- Assignment leaves every other key unchanged. -/
theorem lookupKey_setKey_ne {α : Type} (l : List (String × α)) (k k' : String)
    (v : α) (h : k' ≠ k) :
    lookupKey (setKey l k v) k' = lookupKey l k' := by
  have hne : ¬(k = k') := fun e => h e.symm
  induction l with
  | nil => simp [setKey, lookupKey, hne]
  | cons hd tl ih =>
    cases hd with
    | mk hk hv =>
      by_cases hh : hk = k
      · have hne2 : ¬(hk = k') := by
          rw [hh]
          exact hne
        simp [setKey, lookupKey, hh, hne, hne2]
      · by_cases hh2 : hk = k'
        · simp [setKey, lookupKey, hh, hh2, hne, h]
        · simp [setKey, lookupKey, hh, hh2, ih]

/-- The shared shape of the two AI merge loops: fold a key list, assigning
the AI value at each key the AI response owns. -/
theorem lookupKey_aiMergeFold (ai : JsValue) (keys : List String)
    (acc : List (String × JsValue)) (k : String) :
    lookupKey (keys.foldl
      (fun acc key =>
        if jsHasProp ai key then setKey acc key (jsGetProp ai key) else acc)
      acc) k =
    (if k ∈ keys ∧ jsHasProp ai k then some (jsGetProp ai k) else lookupKey acc k) := by
  induction keys generalizing acc with
  | nil => simp
  | cons key rest ih =>
    simp only [List.foldl_cons]
    rw [ih]
    by_cases hmem : k ∈ rest
    · by_cases hprop : jsHasProp ai k
      · simp [hmem, hprop]
      · simp [hmem, hprop]
        by_cases hk : key = k
        · subst hk
          simp [hprop]
        · have hk2 : k ≠ key := fun e => hk e.symm
          by_cases hkeyprop : jsHasProp ai key
          · simp [hkeyprop, lookupKey_setKey_ne _ _ _ _ hk2]
          · simp [hkeyprop]
    · by_cases hk : key = k
      · subst hk
        by_cases hprop : jsHasProp ai key
        · simp [hmem, hprop, lookupKey_setKey_self]
        · simp [hmem, hprop]
      · have hk2 : k ≠ key := fun e => hk e.symm
        have hnotin : ¬k ∈ key :: rest := by
          simp [hmem, hk2]
        have hcond : ¬(k ∈ key :: rest ∧ jsHasProp ai k = true) :=
          fun hc => hnotin hc.1
        simp only [hnotin, false_and, if_neg hcond]
        by_cases hkeyprop : jsHasProp ai key
        · simp [hkeyprop, hmem, lookupKey_setKey_ne _ _ _ _ hk2]
        · simp [hkeyprop, hmem]

/-- C7 counterexample: in the path slot the merge iterates the keys of the
already-resolved map, not the declared schema. The declared path key `id`
of `demoPathEndpoint`, present in the AI response, is not written when the
resolved map lacks it; and a key outside every declared schema that the
resolved map happens to hold is overwritten. -/
theorem C7_path_merge_ignores_declared_schema :
    (demoPathEndpoint.pathParams.map Prod.fst = ["id"] ∧
      ApiExecutionEngine.mergeAiPathParams []
        (.obj [("id", .num (.fin 5))]) = []) ∧
    ApiExecutionEngine.mergeAiPathParams [("rogue", .str "x")]
      (.obj [("rogue", .str "y")]) = [("rogue", .str "y")] :=
  ⟨⟨rfl, rfl⟩, rfl⟩

/-- C7 (amended): for the query slot the claim holds as stated — exactly
the declared-schema keys owned by the AI response are overwritten (possibly
added), every other key of the resolved data is untouched. For the path
slot the overwritten keys are exactly the keys already present in the
resolved path map before the merge, regardless of the declared schema. -/
theorem C7_merge_frame
    (queryParams : List (String × ParameterDefinition))
    (resolvedQueryParams resolvedPathParams : List (String × JsValue))
    (aiResolvedParams : JsValue) (k : String) :
    lookupKey (ApiExecutionEngine.mergeAiQueryParams queryParams
        resolvedQueryParams aiResolvedParams) k =
      (if k ∈ queryParams.map Prod.fst ∧ jsHasProp aiResolvedParams k then
        some (jsGetProp aiResolvedParams k)
      else lookupKey resolvedQueryParams k) ∧
    lookupKey (ApiExecutionEngine.mergeAiPathParams
        resolvedPathParams aiResolvedParams) k =
      (if k ∈ resolvedPathParams.map Prod.fst ∧ jsHasProp aiResolvedParams k then
        some (jsGetProp aiResolvedParams k)
      else lookupKey resolvedPathParams k) :=
  ⟨lookupKey_aiMergeFold aiResolvedParams (queryParams.map Prod.fst)
      resolvedQueryParams k,
    lookupKey_aiMergeFold aiResolvedParams (resolvedPathParams.map Prod.fst)
      resolvedPathParams k⟩

/-- C8: field extraction is a total function of the recorded result — an
empty path or "." yields the whole response body for every result; the
spec's positive example yields 42 and the missing-key example yields
`undefined`; and a connection whose extraction yields `undefined` is
skipped by the connection resolver: the resolved data is returned unchanged
and no error is possible. -/
theorem C8_extraction_total_and_skip
    (applyTransformation : JsValue → String → JsValue)
    (jsToString : JsValue → String) :
    (∀ result : ExecutionResult,
      ApiExecutionEngine.extractValueFromResult result "" =
        result.responseData.body ∧
      ApiExecutionEngine.extractValueFromResult result "." =
        result.responseData.body) ∧
    ApiExecutionEngine.extractValueFromResult sampleSourceResult
      "data.user.id" = .num (.fin 42) ∧
    ApiExecutionEngine.extractValueFromResult sampleSourceResult
      "data.user.missing" = .undefined ∧
    (∀ (ctx : List (String × ExecutionResult))
        (rd : ApiExecutionEngine.ResolvedData)
        (connection : EndpointConnection) (sourceResult : ExecutionResult),
      lookupKey ctx connection.sourceNodeId = some sourceResult →
      sourceResult.success = true →
      ApiExecutionEngine.extractValueFromResult sourceResult
        connection.sourceField = .undefined →
      ApiExecutionEngine.resolveConnectionStep applyTransformation jsToString
        ctx rd connection = rd) := by
  refine ⟨fun result => ⟨rfl, rfl⟩, rfl, rfl, ?_⟩
  intro ctx rd connection sourceResult hlookup hsuccess hextract
  simp [ApiExecutionEngine.resolveConnectionStep, hlookup, hsuccess, hextract]

/-- C8 witness: the skip conclusion at a concrete context, connection and
resolved data whose extraction misses. -/
theorem C8_extraction_total_and_skip_witness :
    ApiExecutionEngine.resolveConnectionStep (fun v _ => v) (fun _ => "")
      [("get-user", sampleSourceResult)]
      { queryParams := [("q", .str "a")], pathParams := [], body := .null,
        headers := [] }
      (depConnection "get-user" "get-product") =
      { queryParams := [("q", .str "a")], pathParams := [], body := .null,
        headers := [] } :=
  (C8_extraction_total_and_skip (fun v _ => v) (fun _ => "")).2.2.2
    [("get-user", sampleSourceResult)]
    { queryParams := [("q", .str "a")], pathParams := [], body := .null,
      headers := [] }
    (depConnection "get-user" "get-product") sampleSourceResult rfl rfl rfl

/-- C5 counterexample: executing `demoEndpoint` (expects only 200) with
response validation opted in against an HTTP collaborator answering 404:
the endpoint fails, but the context entry left under its id is the
synthetic failed result (success false, status 0) — the recorded
structurally successful result does NOT remain stored for downstream use;
the catch block overwrites it. -/
theorem C5_unexpected_status_overwrites_context :
    demoEndpoint.expectedResponse.map ResponseSchema.statusCode = [200] ∧
    (ApiExecutionEngine.executeEndpoint (fun v _ => v) (fun _ => "")
        (fun _ => "") (fun _ => "") (fun r => .ok r) (fun r => .ok r)
        (fun _ =>
          .ok { status := 404, headers := [],
                data := .obj [("message", .str "not found")] })
        none [] demoEndpoint
        { validateResponse := true, continueOnError := false }).2 =
      ApiExecutionEngine.failureResult (fun _ => "") demoEndpoint
        "Unexpected status code: 404" ∧
    lookupKey (ApiExecutionEngine.executeEndpoint (fun v _ => v) (fun _ => "")
        (fun _ => "") (fun _ => "") (fun r => .ok r) (fun r => .ok r)
        (fun _ =>
          .ok { status := 404, headers := [],
                data := .obj [("message", .str "not found")] })
        none [] demoEndpoint
        { validateResponse := true, continueOnError := false }).1
        demoEndpoint.id =
      some (ApiExecutionEngine.failureResult (fun _ => "") demoEndpoint
        "Unexpected status code: 404") ∧
    (ApiExecutionEngine.failureResult (fun _ => "") demoEndpoint
      "Unexpected status code: 404").success = false ∧
    (ApiExecutionEngine.failureResult (fun _ => "") demoEndpoint
      "Unexpected status code: 404").statusCode = 0 :=
  ⟨rfl, rfl, rfl, rfl, rfl⟩

/-- C5 (amended): with response validation opted in, when the HTTP call
succeeds but the status is unexpected, the structurally successful result
(success true, the real status code and body) is recorded in the context
first, and only then does the status check fail — but the failure lands in
the catch block, which overwrites the entry under the endpoint's id with
the synthetic failed result; after the call the context holds that
synthetic failure, not the recorded successful result. -/
theorem C5_recorded_then_overwritten
    (applyTransformation : JsValue → String → JsValue)
    (jsToString : JsValue → String) (encodeURIComponent : JsValue → String)
    (jsonStringify : JsValue → String)
    (aiResolve : ApiExecutionEngine.ResolvedData →
      Except String ApiExecutionEngine.ResolvedData)
    (authStep : RequestData → Except String RequestData)
    (httpStep : RequestData → Except String HttpResp)
    (globalAuth : Option AuthType) (ctx : List (String × ExecutionResult))
    (endpoint : ApiEndpoint) (options : ExecutionOptions)
    (requestConfig : RequestData) (rd : ApiExecutionEngine.ResolvedData)
    (response : HttpResp) (msg : String)
    (hattempt : ApiExecutionEngine.executeEndpointAttempt applyTransformation
      jsToString encodeURIComponent aiResolve authStep httpStep globalAuth
      ctx endpoint = .ok (requestConfig, rd, response))
    (hopt : options.validateResponse = true)
    (hval : ApiExecutionEngine.validateResponse endpoint
      (ApiExecutionEngine.successResult jsonStringify endpoint requestConfig
        rd response) = .error msg) :
    (ApiExecutionEngine.successResult jsonStringify endpoint requestConfig
      rd response).success = true ∧
    (ApiExecutionEngine.successResult jsonStringify endpoint requestConfig
      rd response).statusCode = response.status ∧
    (ApiExecutionEngine.successResult jsonStringify endpoint requestConfig
      rd response).responseData.body = response.data ∧
    ApiExecutionEngine.executeEndpoint applyTransformation jsToString
      encodeURIComponent jsonStringify aiResolve authStep httpStep globalAuth
      ctx endpoint options =
      (setKey (setKey ctx endpoint.id
          (ApiExecutionEngine.successResult jsonStringify endpoint
            requestConfig rd response))
        endpoint.id (ApiExecutionEngine.failureResult encodeURIComponent endpoint msg),
       ApiExecutionEngine.failureResult encodeURIComponent endpoint msg) ∧
    lookupKey (ApiExecutionEngine.executeEndpoint applyTransformation
        jsToString encodeURIComponent jsonStringify aiResolve authStep
        httpStep globalAuth ctx endpoint options).1 endpoint.id =
      some (ApiExecutionEngine.failureResult encodeURIComponent endpoint msg) := by
  refine ⟨rfl, rfl, rfl, ?_, ?_⟩
  · simp [ApiExecutionEngine.executeEndpoint, hattempt, hopt, hval]
  · simp [ApiExecutionEngine.executeEndpoint, hattempt, hopt, hval,
      lookupKey_setKey_self]

/-- C5 witness: the amended statement at the concrete 404 scenario. -/
theorem C5_recorded_then_overwritten_witness :
    ApiExecutionEngine.executeEndpoint (fun v _ => v) (fun _ => "")
      (fun _ => "") (fun _ => "") (fun r => .ok r) (fun r => .ok r)
      (fun _ =>
        .ok { status := 404, headers := [],
              data := .obj [("message", .str "not found")] })
      none [] demoEndpoint
      { validateResponse := true, continueOnError := false } =
      (setKey (setKey [] demoEndpoint.id
          (ApiExecutionEngine.successResult (fun _ => "") demoEndpoint
            { url := "https://api.example.com/products", method := .GET,
              headers := [], queryParams := [], body := none }
            { queryParams := [], pathParams := [], body := .null, headers := [] }
            { status := 404, headers := [],
              data := .obj [("message", .str "not found")] }))
        demoEndpoint.id
        (ApiExecutionEngine.failureResult (fun _ => "") demoEndpoint
          "Unexpected status code: 404"),
       ApiExecutionEngine.failureResult (fun _ => "") demoEndpoint
        "Unexpected status code: 404") :=
  (C5_recorded_then_overwritten (fun v _ => v) (fun _ => "") (fun _ => "")
    (fun _ => "") (fun r => .ok r) (fun r => .ok r)
    (fun _ =>
      .ok { status := 404, headers := [],
            data := .obj [("message", .str "not found")] })
    none [] demoEndpoint { validateResponse := true, continueOnError := false }
    { url := "https://api.example.com/products", method := .GET,
      headers := [], queryParams := [], body := none }
    { queryParams := [], pathParams := [], body := .null, headers := [] }
    { status := 404, headers := [],
      data := .obj [("message", .str "not found")] }
    "Unexpected status code: 404" rfl rfl rfl).2.2.2.1

/-- C6: whenever the execution attempt of an endpoint fails at any step —
self-validation, typed-connection validation, AI resolution, auth, or the
HTTP transport — `executeEndpoint` returns normally (it is a total
function) with the synthetic failed result: success false, status code 0,
empty headers/query/body in the request snapshot, an empty response with a
null body, and the thrown message as the error; the same result is
recorded in the context under the endpoint's id for `executeFlow` and
downstream dependents to observe. -/
theorem C6_errors_become_failed_results
    (applyTransformation : JsValue → String → JsValue)
    (jsToString : JsValue → String) (encodeURIComponent : JsValue → String)
    (jsonStringify : JsValue → String)
    (aiResolve : ApiExecutionEngine.ResolvedData →
      Except String ApiExecutionEngine.ResolvedData)
    (authStep : RequestData → Except String RequestData)
    (httpStep : RequestData → Except String HttpResp)
    (globalAuth : Option AuthType) (ctx : List (String × ExecutionResult))
    (endpoint : ApiEndpoint) (options : ExecutionOptions) (msg : String)
    (hattempt : ApiExecutionEngine.executeEndpointAttempt applyTransformation
      jsToString encodeURIComponent aiResolve authStep httpStep globalAuth
      ctx endpoint = .error msg) :
    ApiExecutionEngine.executeEndpoint applyTransformation jsToString
      encodeURIComponent jsonStringify aiResolve authStep httpStep globalAuth
      ctx endpoint options =
      (setKey ctx endpoint.id
        (ApiExecutionEngine.failureResult encodeURIComponent endpoint msg),
       ApiExecutionEngine.failureResult encodeURIComponent endpoint msg) ∧
    (ApiExecutionEngine.failureResult encodeURIComponent endpoint msg).success
      = false ∧
    (ApiExecutionEngine.failureResult encodeURIComponent endpoint msg).statusCode
      = 0 ∧
    (ApiExecutionEngine.failureResult encodeURIComponent endpoint msg).requestData.headers
      = [] ∧
    (ApiExecutionEngine.failureResult encodeURIComponent endpoint msg).requestData.queryParams
      = [] ∧
    (ApiExecutionEngine.failureResult encodeURIComponent endpoint msg).requestData.body
      = none ∧
    (ApiExecutionEngine.failureResult encodeURIComponent endpoint msg).responseData
      = { headers := [], body := .null, size := 0 } ∧
    (ApiExecutionEngine.failureResult encodeURIComponent endpoint msg).error
      = some msg ∧
    lookupKey (ApiExecutionEngine.executeEndpoint applyTransformation
        jsToString encodeURIComponent jsonStringify aiResolve authStep
        httpStep globalAuth ctx endpoint options).1 endpoint.id =
      some (ApiExecutionEngine.failureResult encodeURIComponent endpoint msg) := by
  have hmain : ApiExecutionEngine.executeEndpoint applyTransformation jsToString
      encodeURIComponent jsonStringify aiResolve authStep httpStep globalAuth
      ctx endpoint options =
      (setKey ctx endpoint.id
        (ApiExecutionEngine.failureResult encodeURIComponent endpoint msg),
       ApiExecutionEngine.failureResult encodeURIComponent endpoint msg) := by
    simp [ApiExecutionEngine.executeEndpoint, hattempt]
  refine ⟨hmain, rfl, rfl, rfl, rfl, rfl, rfl, rfl, ?_⟩
  rw [hmain]
  exact lookupKey_setKey_self ctx endpoint.id _

/-- C6 witness: a transport failure on `demoEndpoint` produces and records
the synthetic failed result. -/
theorem C6_errors_become_failed_results_witness :
    ApiExecutionEngine.executeEndpoint (fun v _ => v) (fun _ => "")
      (fun _ => "") (fun _ => "") (fun r => .ok r) (fun r => .ok r)
      (fun _ => .error "fetch failed: network down") none [] demoEndpoint
      { validateResponse := false, continueOnError := false } =
      (setKey [] demoEndpoint.id
        (ApiExecutionEngine.failureResult (fun _ => "") demoEndpoint
          "fetch failed: network down"),
       ApiExecutionEngine.failureResult (fun _ => "") demoEndpoint
        "fetch failed: network down") ∧
    (ApiExecutionEngine.failureResult (fun _ => "") demoEndpoint
      "fetch failed: network down").success = false :=
  ⟨(C6_errors_become_failed_results (fun v _ => v) (fun _ => "") (fun _ => "")
      (fun _ => "") (fun r => .ok r) (fun r => .ok r)
      (fun _ => .error "fetch failed: network down") none [] demoEndpoint
      { validateResponse := false, continueOnError := false }
      "fetch failed: network down" rfl).1,
    (C6_errors_become_failed_results (fun v _ => v) (fun _ => "") (fun _ => "")
      (fun _ => "") (fun r => .ok r) (fun r => .ok r)
      (fun _ => .error "fetch failed: network down") none [] demoEndpoint
      { validateResponse := false, continueOnError := false }
      "fetch failed: network down" rfl).2.1⟩

namespace ApiExecutionEngine

/-- Unfolding of `sortVisit` at positive fuel, with the connection loop
expressed through `sortConnStep`. -/
theorem sortVisit_succ (endpoints : List ApiEndpoint) (fuel : Nat)
    (visiting : List String) (st : SortState) (e : ApiEndpoint) :
    sortVisit endpoints (fuel + 1) visiting st e =
      (if e.id ∈ visiting then .error (.cycle e.id)
      else if e.id ∈ st.2 then .ok st
      else
        match e.connections.foldlM (sortConnStep endpoints fuel (e.id :: visiting)) st with
        | .error m => .error m
        | .ok st' => .ok (st'.1 ++ [e], e.id :: st'.2)) := rfl

/-- A monadic fold over `Except` steps through its head. -/
theorem foldlM_except_cons {α σ ε : Type} (f : σ → α → Except ε σ) (st : σ)
    (c : α) (cs : List α) :
    (c :: cs).foldlM f st =
      (match f st c with
      | .error m => .error m
      | .ok st1 => cs.foldlM f st1) := by
  rw [List.foldlM_cons]
  cases f st c <;> rfl

/-- A successful monadic fold over an appended list splits at the seam. -/
theorem foldlM_except_append {α σ ε : Type} (f : σ → α → Except ε σ)
    (l1 l2 : List α) (st st'' : σ)
    (h : (l1 ++ l2).foldlM f st = .ok st'') :
    ∃ st', l1.foldlM f st = .ok st' ∧ l2.foldlM f st' = .ok st'' := by
  induction l1 generalizing st with
  | nil => exact ⟨st, rfl, h⟩
  | cons c cs ih =>
    rw [List.cons_append, foldlM_except_cons] at h
    rw [foldlM_except_cons]
    cases hstep : f st c with
    | error m => rw [hstep] at h; cases h
    | ok st1 =>
      rw [hstep] at h
      exact ih st1 h

/-- Endpoints of a list with distinct ids are determined by their id. -/
theorem eq_of_id_eq {endpoints : List ApiEndpoint}
    (hNodup : (endpoints.map ApiEndpoint.id).Nodup) {x y : ApiEndpoint}
    (hx : x ∈ endpoints) (hy : y ∈ endpoints) (h : x.id = y.id) : x = y :=
  List.inj_on_of_nodup_map hNodup hx hy h

/-- Positions seen through ids: membership of the id. -/
theorem id_mem_map_of_mem {l : List ApiEndpoint} {x : ApiEndpoint}
    (h : x ∈ l) : x.id ∈ l.map ApiEndpoint.id :=
  List.mem_map.mpr ⟨x, h, rfl⟩

/-- `posOf` ignores a right extension for a member of the left part. -/
theorem posOf_append_left {l1 : List ApiEndpoint} (l2 : List ApiEndpoint)
    {x : ApiEndpoint} (h : x ∈ l1) : posOf (l1 ++ l2) x = posOf l1 x := by
  unfold posOf
  rw [List.map_append, List.indexOf_append_of_mem (id_mem_map_of_mem h)]

/-- `posOf` of an id absent from the left part lands in the right part. -/
theorem posOf_append_right {l1 : List ApiEndpoint} (l2 : List ApiEndpoint)
    {x : ApiEndpoint} (h : x.id ∉ l1.map ApiEndpoint.id) :
    posOf (l1 ++ l2) x = l1.length + posOf l2 x := by
  unfold posOf
  rw [List.map_append, List.indexOf_append_of_not_mem h, List.length_map]

/-- A member's position is inside the list. -/
theorem posOf_lt_length {l : List ApiEndpoint} {x : ApiEndpoint} (h : x ∈ l) :
    posOf l x < l.length := by
  have := List.indexOf_lt_length.mpr (id_mem_map_of_mem h)
  simpa [posOf] using this

end ApiExecutionEngine

namespace ApiExecutionEngine

/-- The connection loop inherits the per-visit facts: one induction over
the connection list, given the facts for every visit at the loop's fuel. -/
theorem sortFold_facts_of (endpoints : List ApiEndpoint) (fuel : Nat)
    (hA : ∀ (visiting : List String) (st st' : SortState) (e : ApiEndpoint),
      e ∈ endpoints → sortVisit endpoints fuel visiting st e = .ok st' →
      SortVisitFacts endpoints visiting st st' e)
    (visiting : List String) :
    ∀ (conns : List EndpointConnection) (st st' : SortState),
      (∀ c, c ∈ conns → ∃ ep, ep ∈ endpoints ∧ c ∈ ep.connections) →
      conns.foldlM (sortConnStep endpoints fuel visiting) st = .ok st' →
      SortFoldFacts endpoints visiting st st' conns := by
  intro conns
  induction conns with
  | nil =>
    intro st st' _ h
    have hst : st = st' := by
      simpa [List.foldlM, pure, Except.pure] using h
    subst hst
    exact ⟨⟨[], by simp⟩, fun i hi => hi, fun i hi => Or.inl hi,
      fun c hc => absurd hc (List.not_mem_nil c), fun x hx => Or.inl hx⟩
  | cons c cs ih =>
    intro st st' hc h
    rw [foldlM_except_cons] at h
    cases hstep : sortConnStep endpoints fuel visiting st c with
    | error m => rw [hstep] at h; cases h
    | ok st1 =>
      rw [hstep] at h
      have f2 := ih st1 st' (fun c' hc' => hc c' (List.mem_cons_of_mem c hc')) h
      unfold sortConnStep at hstep
      cases hfind : endpoints.find? (fun ep => ep.id == c.sourceNodeId) with
      | none =>
        rw [hfind] at hstep
        have hst : st = st1 := by
          simpa using hstep
        subst hst
        refine ⟨f2.1, f2.2.1, f2.2.2.1, ?_, f2.2.2.2.2⟩
        intro c' hc' dep hdep
        rcases List.mem_cons.mp hc' with hh | hh
        · subst hh
          rw [hfind] at hdep
          cases hdep
        · exact f2.2.2.2.1 c' hh dep hdep
      | some dep0 =>
        rw [hfind] at hstep
        have hdepmem : dep0 ∈ endpoints := List.mem_of_find?_eq_some hfind
        have f1 := hA visiting st st1 dep0 hdepmem hstep
        obtain ⟨suf1, hsuf1⟩ := f1.1
        obtain ⟨suf2, hsuf2⟩ := f2.1
        have hdep0src : sourcedIn endpoints dep0 := by
          have hid : dep0.id = c.sourceNodeId := by
            have := List.find?_some hfind
            simpa using this
          obtain ⟨ep, hep, hcep⟩ := hc c (List.mem_cons_self c cs)
          exact ⟨ep, hep, c, hcep, hid.symm⟩
        refine ⟨⟨suf1 ++ suf2, by rw [hsuf2, hsuf1, List.append_assoc]⟩,
          fun i hi => f2.2.1 i (f1.2.1 i hi), ?_, ?_, ?_⟩
        · intro i hi
          rcases f2.2.2.1 i hi with hh | hh
          · rcases f1.2.2.2.1 i hh with hh2 | hh2
            · exact Or.inl hh2
            · exact Or.inr hh2
          · exact Or.inr hh
        · intro c' hc' dep hdep
          rcases List.mem_cons.mp hc' with hh | hh
          · subst hh
            rw [hfind] at hdep
            cases hdep
            exact f2.2.1 dep0.id f1.2.2.1
          · exact f2.2.2.2.1 c' hh dep hdep
        · intro x hx
          rcases f2.2.2.2.2 x hx with hh | hh
          · rcases f1.2.2.2.2 x hh with hh2 | hh2 | hh2
            · exact Or.inl hh2
            · subst hh2
              exact Or.inr ⟨hdepmem, hdep0src⟩
            · exact Or.inr hh2
          · exact Or.inr hh

/-- The per-visit facts, by induction on the fuel. -/
theorem sortVisit_facts (endpoints : List ApiEndpoint) :
    ∀ (fuel : Nat) (visiting : List String) (st st' : SortState) (e : ApiEndpoint),
      e ∈ endpoints → sortVisit endpoints fuel visiting st e = .ok st' →
      SortVisitFacts endpoints visiting st st' e := by
  intro fuel
  induction fuel with
  | zero =>
    intro visiting st st' e _ h
    cases h
  | succ n ih =>
    intro visiting st st' e he h
    rw [sortVisit_succ] at h
    by_cases h1 : e.id ∈ visiting
    · rw [if_pos h1] at h
      cases h
    rw [if_neg h1] at h
    by_cases h2 : e.id ∈ st.2
    · rw [if_pos h2] at h
      cases h
      exact ⟨⟨[], by simp⟩, fun i hi => hi, h2, fun i hi => Or.inl hi,
        fun x hx => Or.inl hx⟩
    rw [if_neg h2] at h
    cases hfold : e.connections.foldlM (sortConnStep endpoints n (e.id :: visiting)) st with
    | error m => rw [hfold] at h; cases h
    | ok stF =>
      rw [hfold] at h
      cases h
      have f := sortFold_facts_of endpoints n ih (e.id :: visiting) e.connections
        st stF (fun c hc => ⟨e, he, hc⟩) hfold
      obtain ⟨suf, hsuf⟩ := f.1
      refine ⟨⟨suf ++ [e], by rw [hsuf, List.append_assoc]⟩, ?_, ?_, ?_, ?_⟩
      · intro i hi
        exact List.mem_cons_of_mem _ (f.2.1 i hi)
      · exact List.mem_cons_self _ _
      · intro i hi
        rcases List.mem_cons.mp hi with hh | hh
        · subst hh
          exact Or.inr h1
        · rcases f.2.2.1 i hh with hh2 | hh2
          · exact Or.inl hh2
          · exact Or.inr fun hcon => hh2 (List.mem_cons_of_mem _ hcon)
      · intro x hx
        rcases List.mem_append.mp hx with hh | hh
        · rcases f.2.2.2.2 x hh with hh2 | hh2
          · exact Or.inl hh2
          · exact Or.inr (Or.inr hh2)
        · have : x = e := by
            simpa using hh
          exact Or.inr (Or.inl this)

end ApiExecutionEngine

namespace ApiExecutionEngine

/-- The connection loop preserves the sort invariant, given preservation
for every visit at the loop's fuel. -/
theorem sortFold_inv_of (endpoints : List ApiEndpoint) (fuel : Nat)
    (hAinv : ∀ (visiting : List String) (st st' : SortState) (e : ApiEndpoint),
      e ∈ endpoints → sortVisit endpoints fuel visiting st e = .ok st' →
      SortInv endpoints st → SortInv endpoints st')
    (visiting : List String) :
    ∀ (conns : List EndpointConnection) (st st' : SortState),
      conns.foldlM (sortConnStep endpoints fuel visiting) st = .ok st' →
      SortInv endpoints st → SortInv endpoints st' := by
  intro conns
  induction conns with
  | nil =>
    intro st st' h hInv
    have hst : st = st' := by
      simpa [List.foldlM, pure, Except.pure] using h
    subst hst
    exact hInv
  | cons c cs ih =>
    intro st st' h hInv
    rw [foldlM_except_cons] at h
    cases hstep : sortConnStep endpoints fuel visiting st c with
    | error m => rw [hstep] at h; cases h
    | ok st1 =>
      rw [hstep] at h
      refine ih st1 st' h ?_
      unfold sortConnStep at hstep
      cases hfind : endpoints.find? (fun ep => ep.id == c.sourceNodeId) with
      | none =>
        rw [hfind] at hstep
        have hst : st = st1 := by
          simpa using hstep
        subst hst
        exact hInv
      | some dep0 =>
        rw [hfind] at hstep
        exact hAinv visiting st st1 dep0 (List.mem_of_find?_eq_some hfind)
          hstep hInv

/-- Every visit preserves the sort invariant (ids distinct in the input). -/
theorem sortVisit_inv (endpoints : List ApiEndpoint)
    (hNodup : (endpoints.map ApiEndpoint.id).Nodup) :
    ∀ (fuel : Nat) (visiting : List String) (st st' : SortState) (e : ApiEndpoint),
      e ∈ endpoints → sortVisit endpoints fuel visiting st e = .ok st' →
      SortInv endpoints st → SortInv endpoints st' := by
  intro fuel
  induction fuel with
  | zero =>
    intro visiting st st' e _ h
    cases h
  | succ n ih =>
    intro visiting st st' e he h hInv
    rw [sortVisit_succ] at h
    by_cases h1 : e.id ∈ visiting
    · rw [if_pos h1] at h
      cases h
    rw [if_neg h1] at h
    by_cases h2 : e.id ∈ st.2
    · rw [if_pos h2] at h
      cases h
      exact hInv
    rw [if_neg h2] at h
    cases hfold : e.connections.foldlM (sortConnStep endpoints n (e.id :: visiting)) st with
    | error m => rw [hfold] at h; cases h
    | ok stF =>
      rw [hfold] at h
      cases h
      have hInvF : SortInv endpoints stF :=
        sortFold_inv_of endpoints n ih (e.id :: visiting) e.connections st stF
          hfold hInv
      have f := sortFold_facts_of endpoints n (sortVisit_facts endpoints n)
        (e.id :: visiting) e.connections st stF (fun c hc => ⟨e, he, hc⟩) hfold
      -- e's id never went black inside the loop
      have heNotBlack : e.id ∉ stF.2 := by
        intro hmem
        rcases f.2.2.1 e.id hmem with hh | hh
        · exact h2 hh
        · exact hh (List.mem_cons_self _ _)
      have heNotIds : e.id ∉ stF.1.map ApiEndpoint.id := by
        intro hmem
        apply heNotBlack
        rw [hInvF.1]
        exact List.mem_reverse.mpr hmem
      have heNotInList : e ∉ stF.1 := fun hmem => heNotIds (id_mem_map_of_mem hmem)
      obtain ⟨hlink, hsub, hnodup, hord⟩ := hInvF
      refine ⟨?_, ?_, ?_, ?_⟩
      · show e.id :: stF.2 = ((stF.1 ++ [e]).map ApiEndpoint.id).reverse
        rw [List.map_append, List.reverse_append, hlink]
        rfl
      · intro x hx
        rcases List.mem_append.mp hx with hh | hh
        · exact hsub x hh
        · have : x = e := by simpa using hh
          subst this
          exact he
      · show ((stF.1 ++ [e]).map ApiEndpoint.id).Nodup
        rw [List.map_append]
        refine List.Nodup.append hnodup (by simp) ?_
        intro i hi hi2
        have : i = e.id := by simpa using hi2
        subst this
        exact heNotIds hi
      · intro x hx c hc d hd hdid
        rcases List.mem_append.mp hx with hh | hh
        · -- an endpoint sorted before the push keeps its ordering
          have hres := hord x hh c hc d hd hdid
          refine ⟨List.mem_append_left _ hres.1, ?_⟩
          rw [posOf_append_left [e] hres.1, posOf_append_left [e] hh]
          exact hres.2
        · -- the pushed endpoint: each located dependency is already black
          have hxe : x = e := by simpa using hh
          subst hxe
          -- `find?` locates some endpoint with the id of the dependency
          have hex : ∃ dep, endpoints.find? (fun ep => ep.id == c.sourceNodeId) = some dep := by
            have : (endpoints.find? (fun ep => ep.id == c.sourceNodeId)).isSome := by
              rw [List.find?_isSome]
              exact ⟨d, hd, by simp [hdid.symm]⟩
            exact Option.isSome_iff_exists.mp this
          obtain ⟨dep, hdep⟩ := hex
          have hdepmem : dep ∈ endpoints := List.mem_of_find?_eq_some hdep
          have hdepid : dep.id = c.sourceNodeId := by
            have := List.find?_some hdep
            simpa using this
          have hded : dep = d := eq_of_id_eq hNodup hdepmem hd (by rw [hdepid, hdid])
          have hblack : dep.id ∈ stF.2 := f.2.2.2.1 c hc dep hdep
          have hidmem : dep.id ∈ stF.1.map ApiEndpoint.id := by
            rw [hlink] at hblack
            exact List.mem_reverse.mp hblack
          obtain ⟨y, hy, hyid⟩ := List.mem_map.mp hidmem
          have hymem : y ∈ endpoints := hsub y hy
          have hyd : y = d := eq_of_id_eq hNodup hymem hd (by rw [hyid, hdepid, hdid])
          subst hyd
          refine ⟨List.mem_append_left _ hy, ?_⟩
          rw [posOf_append_left [x] hy]
          have hdpos : posOf stF.1 y < stF.1.length := posOf_lt_length hy
          have hepos : posOf (stF.1 ++ [x]) x = stF.1.length := by
            rw [posOf_append_right [x] heNotIds]
            simp [posOf]
          rw [hepos]
          exact hdpos

end ApiExecutionEngine

namespace ApiExecutionEngine

/-- `sortEndpointsByDependencies`, with its loop through `sortTopStep`. -/
theorem sortEndpoints_def (endpoints : List ApiEndpoint) :
    sortEndpointsByDependencies endpoints =
      (match endpoints.foldlM (sortTopStep endpoints) (([], []) : SortState) with
      | .error m => .error m.message
      | .ok st => .ok st.1) := rfl

/-- Facts accumulated by the top-level loop: growth, coverage of every
processed endpoint, and classification of every sorted endpoint. -/
theorem sortTopFold_facts (endpoints : List ApiEndpoint) :
    ∀ (todo : List ApiEndpoint) (st st' : SortState),
      (∀ e, e ∈ todo → e ∈ endpoints) →
      todo.foldlM (sortTopStep endpoints) st = .ok st' →
      (∃ suf, st'.1 = st.1 ++ suf) ∧
      (∀ i, i ∈ st.2 → i ∈ st'.2) ∧
      (∀ e, e ∈ todo → e.id ∈ st'.2) ∧
      (∀ x, x ∈ st'.1 → x ∈ st.1 ∨ x ∈ todo ∨
        (x ∈ endpoints ∧ sourcedIn endpoints x)) := by
  intro todo
  induction todo with
  | nil =>
    intro st st' _ h
    have hst : st = st' := by
      simpa [List.foldlM, pure, Except.pure] using h
    subst hst
    exact ⟨⟨[], by simp⟩, fun i hi => hi, fun e he => absurd he (List.not_mem_nil e),
      fun x hx => Or.inl hx⟩
  | cons e rest ih =>
    intro st st' hmem h
    rw [foldlM_except_cons] at h
    cases hstep : sortTopStep endpoints st e with
    | error m => rw [hstep] at h; cases h
    | ok st1 =>
      rw [hstep] at h
      have he : e ∈ endpoints := hmem e (List.mem_cons_self e rest)
      have f1 := sortVisit_facts endpoints (endpoints.length + 1) [] st st1 e he hstep
      have f2 := ih st1 st' (fun x hx => hmem x (List.mem_cons_of_mem e hx)) h
      obtain ⟨suf1, hsuf1⟩ := f1.1
      obtain ⟨suf2, hsuf2⟩ := f2.1
      refine ⟨⟨suf1 ++ suf2, by rw [hsuf2, hsuf1, List.append_assoc]⟩,
        fun i hi => f2.2.1 i (f1.2.1 i hi), ?_, ?_⟩
      · intro x hx
        rcases List.mem_cons.mp hx with hh | hh
        · subst hh
          exact f2.2.1 x.id f1.2.2.1
        · exact f2.2.2.1 x hh
      · intro x hx
        rcases f2.2.2.2 x hx with hh | hh | hh
        · rcases f1.2.2.2.2 x hh with hh2 | hh2 | hh2
          · exact Or.inl hh2
          · subst hh2
            exact Or.inr (Or.inl (List.mem_cons_self x rest))
          · exact Or.inr (Or.inr hh2)
        · exact Or.inr (Or.inl (List.mem_cons_of_mem e hh))
        · exact Or.inr (Or.inr hh)

/-- The top-level loop preserves the sort invariant. -/
theorem sortTopFold_inv (endpoints : List ApiEndpoint)
    (hNodup : (endpoints.map ApiEndpoint.id).Nodup) :
    ∀ (todo : List ApiEndpoint) (st st' : SortState),
      (∀ e, e ∈ todo → e ∈ endpoints) →
      todo.foldlM (sortTopStep endpoints) st = .ok st' →
      SortInv endpoints st → SortInv endpoints st' := by
  intro todo
  induction todo with
  | nil =>
    intro st st' _ h hInv
    have hst : st = st' := by
      simpa [List.foldlM, pure, Except.pure] using h
    subst hst
    exact hInv
  | cons e rest ih =>
    intro st st' hmem h hInv
    rw [foldlM_except_cons] at h
    cases hstep : sortTopStep endpoints st e with
    | error m => rw [hstep] at h; cases h
    | ok st1 =>
      rw [hstep] at h
      exact ih st1 st' (fun x hx => hmem x (List.mem_cons_of_mem e hx)) h
        (sortVisit_inv endpoints hNodup (endpoints.length + 1) [] st st1 e
          (hmem e (List.mem_cons_self e rest)) hstep hInv)

/-- Soundness of the sort: on success the output is made of exactly the
input endpoints and respects every in-input dependency edge. -/
theorem sortEndpoints_sound (endpoints l : List ApiEndpoint)
    (hNodup : (endpoints.map ApiEndpoint.id).Nodup)
    (h : sortEndpointsByDependencies endpoints = .ok l) :
    (∀ e, e ∈ endpoints → e ∈ l) ∧ (∀ x, x ∈ l → x ∈ endpoints) ∧
    (∀ e, e ∈ l → ∀ c, c ∈ e.connections → ∀ d, d ∈ endpoints →
      d.id = c.sourceNodeId → d ∈ l ∧ posOf l d < posOf l e) := by
  rw [sortEndpoints_def] at h
  cases hfold : endpoints.foldlM (sortTopStep endpoints) (([], []) : SortState) with
  | error m => rw [hfold] at h; cases h
  | ok stT =>
    rw [hfold] at h
    cases h
    have hInv0 : SortInv endpoints ([], []) :=
      ⟨rfl, by simp, by simp, by simp⟩
    have hInvT := sortTopFold_inv endpoints hNodup endpoints ([], []) stT
      (fun _ hx => hx) hfold hInv0
    have hf := sortTopFold_facts endpoints endpoints ([], []) stT
      (fun _ hx => hx) hfold
    obtain ⟨hlink, hsub, hnodupT, hord⟩ := hInvT
    refine ⟨?_, hsub, hord⟩
    intro e he
    have hblack : e.id ∈ stT.2 := hf.2.2.1 e he
    rw [hlink] at hblack
    obtain ⟨x, hx, hxid⟩ := List.mem_map.mp (List.mem_reverse.mp hblack)
    have : x = e := eq_of_id_eq hNodup (hsub x hx) he hxid
    subst this
    exact hx

/-- A dependency cycle in the input forces the sort to raise an error. -/
theorem sortEndpoints_cycle_error (endpoints : List ApiEndpoint)
    (hNodup : (endpoints.map ApiEndpoint.id).Nodup)
    (hcyc : hasDependencyCycle endpoints) :
    ∃ msg, sortEndpointsByDependencies endpoints = .error msg := by
  cases hres : sortEndpointsByDependencies endpoints with
  | error m => exact ⟨m, rfl⟩
  | ok l =>
    exfalso
    have hs := sortEndpoints_sound endpoints l hNodup hres
    obtain ⟨e, htg⟩ := hcyc
    have hdec : ∀ a b, Relation.TransGen (dependsOn endpoints) a b →
        posOf l b < posOf l a := by
      intro a b htg2
      induction htg2 with
      | single hstep =>
        obtain ⟨ha, hb, c, hc, hcid⟩ := hstep
        exact (hs.2.2 a (hs.1 a ha) c hc _ hb hcid.symm).2
      | tail _ hstep ih =>
        obtain ⟨hb, hc2, c, hc, hcid⟩ := hstep
        exact lt_trans (hs.2.2 _ (hs.1 _ hb) c hc _ hc2 hcid.symm).2 ih
    exact absurd (hdec e e htg) (lt_irrefl _)

end ApiExecutionEngine

/-- The first edge of a transitive dependency chain. -/
theorem transGen_first_edge {α : Type} {r : α → α → Prop} {a b : α}
    (h : Relation.TransGen r a b) : ∃ x, r a x := by
  induction h with
  | single h => exact ⟨_, h⟩
  | tail _ _ ih => exact ih

/-- C1: for every input with unique endpoint ids, a successful sort returns
exactly the input endpoints, ordered so that every endpoint stands after
every input endpoint referenced as a connection source (sources absent from
the input constrain nothing, as only in-input sources are quantified); the
spec's example `[C, A, B]` with B after A and C after B sorts to
`[A, B, C]`; every input holding a dependency cycle makes the sort raise an
error; and on the spec's two-cycle `A ⇄ B` the raised error names the
endpoint id `A`, which lies on the cycle. -/
theorem C1_dependency_resolver_order :
    (∀ (endpoints l : List ApiEndpoint),
      (endpoints.map ApiEndpoint.id).Nodup →
      ApiExecutionEngine.sortEndpointsByDependencies endpoints = .ok l →
      (∀ e, e ∈ endpoints → e ∈ l) ∧ (∀ x, x ∈ l → x ∈ endpoints) ∧
      (∀ e, e ∈ l → ∀ c, c ∈ e.connections → ∀ d, d ∈ endpoints →
        d.id = c.sourceNodeId →
        d ∈ l ∧ ApiExecutionEngine.posOf l d < ApiExecutionEngine.posOf l e)) ∧
    ApiExecutionEngine.sortEndpointsByDependencies [epOrderC, epOrderA, epOrderB] =
      .ok [epOrderA, epOrderB, epOrderC] ∧
    (∀ endpoints : List ApiEndpoint,
      (endpoints.map ApiEndpoint.id).Nodup →
      ApiExecutionEngine.hasDependencyCycle endpoints →
      ∃ msg, ApiExecutionEngine.sortEndpointsByDependencies endpoints = .error msg) ∧
    ApiExecutionEngine.sortEndpointsByDependencies [epCycleA, epCycleB] =
      .error "Circular dependency detected involving endpoint: A" :=
  ⟨ApiExecutionEngine.sortEndpoints_sound, rfl,
    ApiExecutionEngine.sortEndpoints_cycle_error, rfl⟩

/-- C1 witness: the soundness conclusion at the spec's `[C, A, B]` input,
and the cycle error at the concrete two-cycle. -/
theorem C1_dependency_resolver_order_witness :
    ((∀ e, e ∈ [epOrderC, epOrderA, epOrderB] → e ∈ [epOrderA, epOrderB, epOrderC]) ∧
      (∀ x, x ∈ [epOrderA, epOrderB, epOrderC] → x ∈ [epOrderC, epOrderA, epOrderB]) ∧
      (∀ e, e ∈ [epOrderA, epOrderB, epOrderC] → ∀ c, c ∈ e.connections →
        ∀ d, d ∈ [epOrderC, epOrderA, epOrderB] → d.id = c.sourceNodeId →
        d ∈ [epOrderA, epOrderB, epOrderC] ∧
        ApiExecutionEngine.posOf [epOrderA, epOrderB, epOrderC] d <
          ApiExecutionEngine.posOf [epOrderA, epOrderB, epOrderC] e)) ∧
    (∃ msg, ApiExecutionEngine.sortEndpointsByDependencies [epCycleA, epCycleB] =
      .error msg) :=
  ⟨C1_dependency_resolver_order.1 [epOrderC, epOrderA, epOrderB]
      [epOrderA, epOrderB, epOrderC] (by decide) rfl,
    C1_dependency_resolver_order.2.2.1 [epCycleA, epCycleB] (by decide)
      ⟨epCycleA,
        Relation.TransGen.head
          ⟨List.mem_cons_self _ _,
            List.mem_cons_of_mem _ (List.mem_cons_self _ _),
            depConnection "B" "A", List.mem_cons_self _ _, rfl⟩
          (Relation.TransGen.single
            ⟨List.mem_cons_of_mem _ (List.mem_cons_self _ _),
              List.mem_cons_self _ _,
              depConnection "A" "B", List.mem_cons_self _ _, rfl⟩)⟩⟩

/-- C9 counterexample: input `[A, C, B]` where only A depends on B. B and C
are unconstrained (neither reaches the other through connection edges) and
C precedes B in the input, yet the sort returns `[B, A, C]`, where B
precedes C: the depth-first visit of A pulls its dependency B ahead of C,
so input order is not preserved for unconstrained pairs. -/
theorem C9_stability_counterexample :
    ApiExecutionEngine.sortEndpointsByDependencies [epStabA, epStabC, epStabB] =
      .ok [epStabB, epStabA, epStabC] ∧
    ¬ Relation.TransGen
      (ApiExecutionEngine.dependsOn [epStabA, epStabC, epStabB]) epStabB epStabC ∧
    ¬ Relation.TransGen
      (ApiExecutionEngine.dependsOn [epStabA, epStabC, epStabB]) epStabC epStabB ∧
    ApiExecutionEngine.posOf [epStabA, epStabC, epStabB] epStabC <
      ApiExecutionEngine.posOf [epStabA, epStabC, epStabB] epStabB ∧
    ApiExecutionEngine.posOf [epStabB, epStabA, epStabC] epStabB <
      ApiExecutionEngine.posOf [epStabB, epStabA, epStabC] epStabC := by
  refine ⟨rfl, ?_, ?_, by decide, by decide⟩
  · intro h
    obtain ⟨x, hx⟩ := transGen_first_edge h
    obtain ⟨_, _, c, hc, _⟩ := hx
    simp [epStabB, mkSortEndpoint] at hc
  · intro h
    obtain ⟨x, hx⟩ := transGen_first_edge h
    obtain ⟨_, _, c, hc, _⟩ := hx
    simp [epStabC, mkSortEndpoint] at hc

namespace ApiExecutionEngine

/-- C9 (amended): input order is preserved for endpoints that no input
connection references as a source: such endpoints are reached only by the
top-level loop, never pulled ahead as someone's dependency, so every pair
of them (unconstrained in particular, since unreferenced endpoints have no
inbound edge) keeps the input's relative order in the returned list. For
endpoints that ARE referenced as sources the claim fails (see the
counterexample): a depth-first visit of an earlier endpoint pulls its
transitive dependencies ahead of unrelated endpoints standing between
them in the input. -/
theorem C9_input_order_for_never_sourced (endpoints l : List ApiEndpoint)
    (u v : ApiEndpoint) (hNodup : (endpoints.map ApiEndpoint.id).Nodup)
    (h : sortEndpointsByDependencies endpoints = .ok l)
    (hu : u ∈ endpoints) (hv : v ∈ endpoints)
    (_hnsu : neverSourced endpoints u)
    (hnsv : neverSourced endpoints v)
    (horder : posOf endpoints u < posOf endpoints v) :
    posOf l u < posOf l v := by
  obtain ⟨pre, rest, hsplit⟩ := List.append_of_mem hu
  subst hsplit
  have hidsplit : (pre ++ u :: rest).map ApiEndpoint.id =
      pre.map ApiEndpoint.id ++ u.id :: rest.map ApiEndpoint.id := by
    simp
  have hNodup2 := hNodup
  rw [hidsplit] at hNodup2
  have hdisj := (List.nodup_append.mp hNodup2).2.2
  have hupre : u.id ∉ pre.map ApiEndpoint.id :=
    fun hmem => hdisj hmem (List.mem_cons_self _ _)
  have hposu : posOf (pre ++ u :: rest) u = pre.length := by
    unfold posOf
    rw [hidsplit, List.indexOf_append_of_not_mem hupre, List.indexOf_cons_self]
    simp
  have hvrest : v ∈ rest := by
    rcases List.mem_append.mp hv with hh | hh
    · exfalso
      have hvid : v.id ∈ pre.map ApiEndpoint.id := id_mem_map_of_mem hh
      have hlt : posOf (pre ++ u :: rest) v < pre.length := by
        unfold posOf
        rw [hidsplit, List.indexOf_append_of_mem hvid]
        have := List.indexOf_lt_length.mpr hvid
        simpa using this
      omega
    · rcases List.mem_cons.mp hh with hh2 | hh2
      · subst hh2
        exact absurd horder (lt_irrefl _)
      · exact hh2
  have hvu : v ≠ u := by
    intro he
    subst he
    exact absurd horder (lt_irrefl _)
  rw [sortEndpoints_def] at h
  cases hfold : (pre ++ u :: rest).foldlM (sortTopStep (pre ++ u :: rest))
      (([], []) : SortState) with
  | error m => rw [hfold] at h; cases h
  | ok stT =>
    rw [hfold] at h
    cases h
    obtain ⟨st0, hfoldPre, hfoldTail⟩ := foldlM_except_append _ pre (u :: rest)
      (([], []) : SortState) stT hfold
    rw [foldlM_except_cons] at hfoldTail
    cases hstepu : sortTopStep (pre ++ u :: rest) st0 u with
    | error m => rw [hstepu] at hfoldTail; cases hfoldTail
    | ok st1 =>
      rw [hstepu] at hfoldTail
      -- invariants along the prefix, through u, and facts for the tail
      have hInv0 : SortInv (pre ++ u :: rest) ([], []) :=
        ⟨rfl, by simp, by simp, by simp⟩
      have hInvPre := sortTopFold_inv (pre ++ u :: rest) hNodup pre
        (([], []) : SortState) st0 (fun x hx => List.mem_append_left _ hx)
        hfoldPre hInv0
      have hInv1 := sortVisit_inv (pre ++ u :: rest) hNodup
        ((pre ++ u :: rest).length + 1) [] st0 st1 u hu hstepu hInvPre
      have hfPre := sortTopFold_facts (pre ++ u :: rest) pre
        (([], []) : SortState) st0 (fun x hx => List.mem_append_left _ hx)
        hfoldPre
      have hfU := sortVisit_facts (pre ++ u :: rest)
        ((pre ++ u :: rest).length + 1) [] st0 st1 u hu hstepu
      have hfRest := sortTopFold_facts (pre ++ u :: rest) rest st1 stT
        (fun x hx => List.mem_append_right _ (List.mem_cons_of_mem _ hx))
        hfoldTail
      -- u is already sorted after its own visit
      have humem1 : u ∈ st1.1 := by
        have hblack : u.id ∈ st1.2 := hfU.2.2.1
        rw [hInv1.1] at hblack
        obtain ⟨y, hy, hyid⟩ := List.mem_map.mp (List.mem_reverse.mp hblack)
        have : y = u := eq_of_id_eq hNodup (hInv1.2.1 y hy) hu hyid
        subst this
        exact hy
      -- v is not: it is not sourced and not processed yet
      have hvnot1 : v ∉ st1.1 := by
        intro hvmem
        rcases hfU.2.2.2.2 v hvmem with hh | hh | hh
        · rcases hfPre.2.2.2 v hh with hh2 | hh2 | hh2
          · simp at hh2
          · exact absurd hh2 (fun hvp => by
              have hvid : v.id ∈ pre.map ApiEndpoint.id := id_mem_map_of_mem hvp
              have hlt : posOf (pre ++ u :: rest) v < pre.length := by
                unfold posOf
                rw [hidsplit, List.indexOf_append_of_mem hvid]
                have := List.indexOf_lt_length.mpr hvid
                simpa using this
              omega)
          · obtain ⟨ep, hep, c, hc, hcid⟩ := hh2.2
            exact hnsv ep hep c hc hcid
        · exact hvu hh
        · obtain ⟨ep, hep, c, hc, hcid⟩ := hh.2
          exact hnsv ep hep c hc hcid
      have hvid1 : v.id ∉ st1.1.map ApiEndpoint.id := by
        intro hvmem
        obtain ⟨y, hy, hyid⟩ := List.mem_map.mp hvmem
        have : y = v := eq_of_id_eq hNodup (hInv1.2.1 y hy) hv hyid
        subst this
        exact hvnot1 hy
      -- the tail only appends, so u stays before everything that follows
      obtain ⟨suf, hsuf⟩ := hfRest.1
      rw [hsuf]
      have h1 : posOf (st1.1 ++ suf) u = posOf st1.1 u :=
        posOf_append_left suf humem1
      have h2 : posOf (st1.1 ++ suf) v = st1.1.length + posOf suf v :=
        posOf_append_right suf hvid1
      have h3 : posOf st1.1 u < st1.1.length := posOf_lt_length humem1
      omega

end ApiExecutionEngine

/-- C9 witness: the amended statement at the counterexample input — `A`
(never sourced) precedes `C` (never sourced) in `[A, C, B]`, and keeps
preceding it in the output `[B, A, C]`, even though `B` was pulled ahead. -/
theorem C9_input_order_for_never_sourced_witness :
    ApiExecutionEngine.posOf [epStabB, epStabA, epStabC] epStabA <
      ApiExecutionEngine.posOf [epStabB, epStabA, epStabC] epStabC :=
  ApiExecutionEngine.C9_input_order_for_never_sourced
    [epStabA, epStabC, epStabB] [epStabB, epStabA, epStabC] epStabA epStabC
    (by decide) rfl (List.mem_cons_self _ _)
    (List.mem_cons_of_mem _ (List.mem_cons_self _ _))
    (by unfold ApiExecutionEngine.neverSourced
        decide)
    (by unfold ApiExecutionEngine.neverSourced
        decide)
    (by decide)

namespace ApiExecutionEngine

/-- The fuel sentinel is a pure model artifact: a visit whose fuel strictly
exceeds the ids still available to turn grey never runs out, because every
nesting level greys a fresh id drawn from the input. -/
theorem sortVisit_no_fuel_error (endpoints : List ApiEndpoint) :
    ∀ (fuel : Nat) (visiting : List String) (st : SortState) (e : ApiEndpoint),
      e ∈ endpoints →
      (((endpoints.map ApiEndpoint.id).toFinset \ visiting.toFinset).card < fuel) →
      sortVisit endpoints fuel visiting st e ≠ .error .outOfFuel := by
  intro fuel
  induction fuel with
  | zero =>
    intro visiting st e _ hcard
    exact absurd hcard (by omega)
  | succ n ih =>
    intro visiting st e he hcard h
    rw [sortVisit_succ] at h
    by_cases h1 : e.id ∈ visiting
    · rw [if_pos h1] at h
      cases h
    rw [if_neg h1] at h
    by_cases h2 : e.id ∈ st.2
    · rw [if_pos h2] at h
      cases h
    rw [if_neg h2] at h
    -- the grey set grows by a fresh input id, so the card drops below n
    have heid : e.id ∈ (endpoints.map ApiEndpoint.id).toFinset := by
      rw [List.mem_toFinset]
      exact id_mem_map_of_mem he
    have heidsd : e.id ∈ (endpoints.map ApiEndpoint.id).toFinset \ visiting.toFinset := by
      rw [Finset.mem_sdiff]
      exact ⟨heid, by simpa [List.mem_toFinset] using h1⟩
    have hset : (endpoints.map ApiEndpoint.id).toFinset \ (e.id :: visiting).toFinset =
        ((endpoints.map ApiEndpoint.id).toFinset \ visiting.toFinset).erase e.id := by
      ext x
      simp only [Finset.mem_sdiff, Finset.mem_erase, List.toFinset_cons,
        Finset.mem_insert, not_or, List.mem_toFinset]
      tauto
    have hcard2 : (((endpoints.map ApiEndpoint.id).toFinset \
        (e.id :: visiting).toFinset).card) < n := by
      rw [hset, Finset.card_erase_of_mem heidsd]
      have hpos : 0 < ((endpoints.map ApiEndpoint.id).toFinset \ visiting.toFinset).card :=
        Finset.card_pos.mpr ⟨e.id, heidsd⟩
      omega
    -- no step of the connection loop can exhaust
    have hfold : ∀ (conns : List EndpointConnection) (st0 : SortState),
        conns.foldlM (sortConnStep endpoints n (e.id :: visiting)) st0 ≠
          .error .outOfFuel := by
      intro conns
      induction conns with
      | nil =>
        intro st0 hc
        simp [List.foldlM, pure, Except.pure] at hc
      | cons c cs ihc =>
        intro st0 hc
        rw [foldlM_except_cons] at hc
        cases hstep : sortConnStep endpoints n (e.id :: visiting) st0 c with
        | error m =>
          rw [hstep] at hc
          cases hc
          unfold sortConnStep at hstep
          cases hfind : endpoints.find? (fun ep => ep.id == c.sourceNodeId) with
          | none =>
            rw [hfind] at hstep
            cases hstep
          | some dep =>
            rw [hfind] at hstep
            exact ih (e.id :: visiting) st0 dep
              (List.mem_of_find?_eq_some hfind) hcard2 hstep
        | ok st1 =>
          rw [hstep] at hc
          exact ihc st1 hc
    cases hfoldRes : e.connections.foldlM (sortConnStep endpoints n (e.id :: visiting)) st with
    | error m =>
      rw [hfoldRes] at h
      cases h
      exact hfold e.connections st hfoldRes
    | ok stF =>
      rw [hfoldRes] at h
      cases h

/-- Every error of `sortEndpointsByDependencies` is the source's cycle
error: the chosen fuel `endpoints.length + 1` is adequate, so the model's
out-of-fuel sentinel never escapes and the model raises exactly the errors
the source raises. -/
theorem sortEndpoints_error_is_cycle (endpoints : List ApiEndpoint) (m : String)
    (h : sortEndpointsByDependencies endpoints = .error m) :
    ∃ id, m = cycleMessage id := by
  have hcard : ((endpoints.map ApiEndpoint.id).toFinset \
      (([] : List String)).toFinset).card < endpoints.length + 1 := by
    have h1 : ((endpoints.map ApiEndpoint.id).toFinset \
        (([] : List String)).toFinset).card ≤ (endpoints.map ApiEndpoint.id).length := by
      calc ((endpoints.map ApiEndpoint.id).toFinset \ (([] : List String)).toFinset).card
          ≤ (endpoints.map ApiEndpoint.id).toFinset.card :=
            Finset.card_le_card (Finset.sdiff_subset)
        _ ≤ (endpoints.map ApiEndpoint.id).length := (endpoints.map ApiEndpoint.id).toFinset_card_le
    rw [List.length_map] at h1
    omega
  have htop : ∀ (todo : List ApiEndpoint) (st : SortState),
      (∀ e, e ∈ todo → e ∈ endpoints) →
      todo.foldlM (sortTopStep endpoints) st ≠ .error .outOfFuel := by
    intro todo
    induction todo with
    | nil =>
      intro st hmem hc
      simp [List.foldlM, pure, Except.pure] at hc
    | cons e rest ihc =>
      intro st hmem hc
      rw [foldlM_except_cons] at hc
      cases hstep : sortTopStep endpoints st e with
      | error m2 =>
        rw [hstep] at hc
        cases hc
        exact sortVisit_no_fuel_error endpoints (endpoints.length + 1) [] st e
          (hmem e (List.mem_cons_self e rest)) hcard hstep
      | ok st1 =>
        rw [hstep] at hc
        exact ihc st1 (fun x hx => hmem x (List.mem_cons_of_mem e hx)) hc
  rw [sortEndpoints_def] at h
  cases hfold : endpoints.foldlM (sortTopStep endpoints) (([], []) : SortState) with
  | error errSort =>
    rw [hfold] at h
    cases h
    cases errSort with
    | cycle id => exact ⟨id, rfl⟩
    | outOfFuel => exact absurd hfold (htop endpoints ([], []) (fun _ hx => hx))
  | ok stT =>
    rw [hfold] at h
    cases h

end ApiExecutionEngine
